import Mathlib

/-!
Verification development for the seeding pipeline (george-bobby/seed-template).

The Python source is shallowly embedded:

* `datetime` values are modelled as integers counting microseconds since the
  proleptic-Gregorian epoch 0001-01-01 00:00:00, which is a Monday; with that
  epoch, Python's `date.weekday()` (Monday = 0 .. Sunday = 6) is the day index
  modulo 7.  `timedelta(days = k)` is `k * usPerDay`, and `timedelta.days` is
  floor division by `usPerDay` (Lean's `Int` `/` is Euclidean division, which
  coincides with floor division for the positive divisors used here, exactly
  like Python's `//`).
* Python's float arithmetic in the date computations is modelled as exact
  rational arithmetic (`ℚ`), with `int(·)` as `Int.floor` (all the converted
  quantities are nonnegative, where truncation and floor agree).
* the repeated `datetime.now()` calls inside one run of `update_entity_dates`
  are modelled as a single clock value `now` (the spec's "clock of the run").
* Python dictionaries/records are modelled by structures carrying exactly the
  fields the embedded code reads.
-/

/-! ## Calendar model -/
def usPerSecond : ℤ := 1000000

def usPerMinute : ℤ := 60000000

def usPerHour : ℤ := 3600000000

def usPerDay : ℤ := 86400000000

/-- Number of whole days since the epoch (the date part of a datetime,
microseconds-since-epoch representation). -/
def dayIndex (t : ℤ) : ℤ := t / usPerDay

/-- Midnight of the datetime's day. -/
def dayStart (t : ℤ) : ℤ := dayIndex t * usPerDay

/-- Python `datetime.weekday()`: Monday = 0 .. Sunday = 6. -/
def weekdayOf (t : ℤ) : ℤ := dayIndex t % 7

/-- Python `datetime.hour`. -/
def hourOf (t : ℤ) : ℤ := t % usPerDay / usPerHour

/-- Python `datetime.minute`. -/
def minuteOf (t : ℤ) : ℤ := t % usPerDay / usPerMinute % 60

/-- Python `datetime.second`. -/
def secondOf (t : ℤ) : ℤ := t % usPerDay / usPerSecond % 60

/-- Python `dt.replace(hour = h, minute = m, second = s, microsecond = u)`. -/
def replaceTime (t h m s u : ℤ) : ℤ :=
  dayStart t + h * usPerHour + m * usPerMinute + s * usPerSecond + u

/-- Python `dt.replace(second = s, microsecond = u)`. -/
def replaceSecMicro (t s u : ℤ) : ℤ :=
  t / usPerMinute * usPerMinute + s * usPerSecond + u

/-- Python `dt.replace(microsecond = u)`. -/
def replaceMicro (t u : ℤ) : ℤ :=
  t / usPerSecond * usPerSecond + u

/-- Python `dt + timedelta(days = k)`. -/
def addDays (t k : ℤ) : ℤ := t + k * usPerDay

/-- Python `(a - b).days` (timedelta normalizes with floor division). -/
def timedeltaDays (a b : ℤ) : ℤ := (a - b) / usPerDay

/-! ## `skip_weekend` (src/utils/helpers.py) -/
/-- Adjusts a date to skip weekends (moves to Monday). -/
def skip_weekend (date : ℤ) : ℤ :=
  let weekday := weekdayOf date
  if weekday = 5 then addDays date 2
  else if weekday = 6 then addDays date 1
  else date

/-! ## Deduplication loop (src/core/example_entity.py, `seed_example_entity`) -/
/-- A candidate record: the `name` field the dedup loop reads (absent modelled
as `none`, matching `entity.get("name", "")`), plus an opaque payload standing
for all the other fields. -/
structure Entity where
  name : Option String
  payload : ℕ
deriving DecidableEq, Repr

/-- `entity.get("name", "")`. -/
def Entity.getName (e : Entity) : String := e.name.getD ""

/-- The case-insensitive trimmed key the loop folds on
(`entity.get("name", "").strip().lower()`). -/
def Entity.key (e : Entity) : String := e.getName.trim.toLower

/-- The dedup loop body: `seen_names` accumulates lowercased trimmed names,
empty names are skipped, first occurrence wins. -/
def dedupGo : List Entity → List String → List Entity
  | [], _ => []
  | e :: rest, seen =>
    let entityName := e.getName.trim
    if entityName = "" then dedupGo rest seen
    else
      let lower := entityName.toLower
      if lower ∈ seen then dedupGo rest seen
      else e :: dedupGo rest (lower :: seen)

/-- The deduplication step of `seed_example_entity` (lines 31-40). -/
def dedupEntities (entities : List Entity) : List Entity := dedupGo entities []

/-! ## `ensure_unique_datetime` (src/utils/helpers.py)

The used-set holds second-granularity ISO strings; ISO strings are in
bijection with microsecond timestamps, so the set is modelled as a
`Finset ℤ` of timestamps.  The `field_name`/`counters` parameters only feed
logging and metrics and are omitted.  The result models the returned date
and the updated used-set. -/
/-- How one run of the probe loop exits: a unique slot was returned from
inside the loop, the backward probe crossed the min bound (`break`), or all
attempts were consumed and the loop fell through. -/
inductive EuExit where
  | found (d : ℤ)
  | broke (d lastStr : ℤ)
  | exhausted (d : ℤ)
deriving DecidableEq, Repr

/-- One probe of the loop body (lines 342-349): step forward by `attempt`
seconds; if that passes `max_date`, step backward instead; if the backward
probe passes `min_date`, the loop breaks with the out-of-range date. -/
def euProbe (orig : ℤ) (minD maxD : Option ℤ) (attempt : ℕ) : ℤ ⊕ ℤ :=
  let d := orig + (attempt : ℤ) * usPerSecond
  match maxD with
  | some mx =>
    if d > mx then
      let d2 := orig - (attempt : ℤ) * usPerSecond
      match minD with
      | some mn => if d2 < mn then Sum.inr d2 else Sum.inl d2
      | none => Sum.inl d2
    else Sum.inl d
  | none => Sum.inl d

/-- The probe loop (lines 341-355) over the remaining attempt numbers,
threading the last ISO string written (line 351): returns from inside the
loop on a fresh slot, breaks with the current date on a min-bound cross, or
falls through with the last probed date. -/
def euLoop (orig : ℤ) (used : Finset ℤ) (minD maxD : Option ℤ) :
    List ℕ → ℤ → EuExit
  | [], last => .exhausted last
  | a :: rest, last =>
    match euProbe orig minD maxD a with
    | .inr d => .broke d last
    | .inl d => if d ∈ used then euLoop orig used minD maxD rest d else .found d

/-- Lines 321-326: truncate to second granularity, clamp to `max_date` then
`min_date` when given. -/
def euInit (date : ℤ) (minD maxD : Option ℤ) : ℤ :=
  let date := replaceMicro date 0
  let date := match maxD with
    | some mx => if date > mx then mx else date
    | none => date
  match minD with
  | some mn => if date < mn then mn else date
  | none => date

/-- `ensure_unique_datetime`: returns the chosen timestamp and the updated
used-set. -/
def ensure_unique_datetime (date : ℤ) (used : Finset ℤ)
    (minD maxD : Option ℤ) : ℤ × Finset ℤ :=
  let date1 := euInit date minD maxD
  if date1 ∉ used then (date1, insert date1 used)
  else
    match euLoop date1 used minD maxD (List.range' 1 86400) date1 with
    | .found d => (d, insert d used)
    | .broke d last => (d, insert last used)
    | .exhausted d => (d, insert d used)

/-! ## `update_entity_dates` (src/utils/data_utils.py)

Per-record embedding of the temporal backfill (lines 94-285).  The record's
`date_idx` (after the optional shuffle), the batch size, `months_back`, and
the successfully-parsed original reference dates (`safe_strptime` results;
absent or unparsable strings modelled as `none`) determine the computed
`(created, modified)` pair deterministically.  Python `int(·)` on the float
subexpressions is modelled as `Int.floor` over exact rationals; every
converted quantity is nonnegative, where truncation and floor agree. -/
/-- Lines 158-159 (also 187-188, 264-265): synthesized creation hour. -/
def createdHours (dateIdx : ℕ) : ℤ := min 17 (max 8 (8 + (dateIdx : ℤ) * 7 % 10))

/-- Line 160 (also 189, 266): synthesized creation minute. -/
def createdMinutes (dateIdx : ℕ) : ℤ := (dateIdx : ℤ) * 11 % 60

/-- Line 161 (also 190, 267): synthesized creation second. -/
def createdSeconds (dateIdx : ℕ) : ℤ := (dateIdx : ℤ) * 19 % 60

/-- Line 162 (also 191, 268): synthesized creation microsecond. -/
def createdMicroseconds (dateIdx : ℕ) : ℤ := (dateIdx : ℤ) * 23 % 1000000

/-- Lines 211-212 (also 230-231, 272-273): synthesized modification hour. -/
def modHours (created : ℤ) (dateIdx : ℕ) : ℤ :=
  min 17 (max 8 (8 + (hourOf created + (dateIdx : ℤ) * 7) % 10))

/-- Line 213 (also 232, 274): synthesized modification minute. -/
def modMinutes (created : ℤ) (dateIdx : ℕ) : ℤ :=
  (minuteOf created + (dateIdx : ℤ) * 11) % 60

/-- Line 214 (also 233, 275): synthesized modification second. -/
def modSeconds (created : ℤ) (dateIdx : ℕ) : ℤ :=
  (secondOf created + (dateIdx : ℤ) * 19) % 60

/-- Line 215 (also 234, 276): synthesized modification microsecond. -/
def modMicroseconds (dateIdx : ℕ) : ℤ := (dateIdx : ℤ) * 29 % 1000000

/-- Lines 136-142: position-based day offset when a reference creation date
exists. -/
def refDaysOffset (daysRange totalItems dateIdx : ℕ) : ℤ :=
  if 1 < totalItems then
    let linearOffset : ℚ := (dateIdx : ℚ) / ((totalItems : ℚ) - 1) * (daysRange : ℚ)
    let variationDivisor : ℕ := max 10 (daysRange / 10)
    let primeVariation : ℕ :=
      if 0 < variationDivisor then dateIdx * 17 % variationDivisor else 0
    Int.floor (linearOffset + (primeVariation : ℚ))
  else (daysRange : ℤ) / 2

/-- Lines 130-167: creation date blended from the parsed original creation
date and the position-based target. -/
def createdFromRef (now parsed0 : ℤ) (daysRange totalItems dateIdx : ℕ) : ℤ :=
  let minDate := addDays now (-(daysRange : ℤ))
  let parsed := if parsed0 > now then addDays now (-1) else parsed0
  let daysOffset := refDaysOffset daysRange totalItems dateIdx
  let daysFromParsed := timedeltaDays parsed minDate
  let daysFromParsed := max 0 (min daysFromParsed (daysRange : ℤ))
  let blended : ℤ :=
    Int.floor ((3 : ℚ) / 10 * (daysFromParsed : ℚ) + (7 : ℚ) / 10 * (daysOffset : ℚ))
  let blended := max 0 (min blended (daysRange : ℤ))
  let created := addDays minDate blended
  let created := if created > now then addDays now (-1) else created
  let created := if created < minDate then minDate else created
  let created := replaceTime created (createdHours dateIdx) (createdMinutes dateIdx)
    (createdSeconds dateIdx) (createdMicroseconds dateIdx)
  if created > now then
    replaceTime (addDays now (-1)) (createdHours dateIdx) (createdMinutes dateIdx)
      (createdSeconds dateIdx) (createdMicroseconds dateIdx)
  else created

/-- Lines 177-185: position-based days-ago used when no reference creation
date is available (linear interpolation plus the `(index * 17) mod divisor`
variation, clamped into `[1, days_range]`). -/
def noRefDaysAgo (daysRange totalItems dateIdx : ℕ) : ℤ :=
  let daysAgo : ℤ :=
    if 1 < totalItems then
      let linearDays : ℚ :=
        1 + (dateIdx : ℚ) / ((totalItems : ℚ) - 1) * ((daysRange : ℚ) - 1)
      let variationDivisor : ℕ := max 10 (daysRange / 20)
      let primeVariation : ℕ :=
        if 0 < variationDivisor then dateIdx * 17 % variationDivisor else 0
      Int.floor (linearDays + (primeVariation : ℚ))
    else (daysRange : ℤ) / 2
  max 1 (min daysAgo (daysRange : ℤ))

/-- Lines 187-198: creation date when no reference creation date exists. -/
def createdNoRef (now : ℤ) (daysRange totalItems dateIdx : ℕ) : ℤ :=
  let daysAgo := noRefDaysAgo daysRange totalItems dateIdx
  let created := addDays now (-daysAgo)
  let created := replaceTime created (createdHours dateIdx) (createdMinutes dateIdx)
    (createdSeconds dateIdx) (createdMicroseconds dateIdx)
  if created > now then
    replaceTime (addDays now (-1)) (createdHours dateIdx) (createdMinutes dateIdx)
      (createdSeconds dateIdx) (createdMicroseconds dateIdx)
  else created

/-- Lines 123-198: the creation-date stage. -/
def createdStage (now : ℤ) (daysRange totalItems dateIdx : ℕ)
    (origCreated : Option ℤ) : ℤ :=
  match origCreated with
  | some parsed => createdFromRef now parsed daysRange totalItems dateIdx
  | none => createdNoRef now daysRange totalItems dateIdx

/-- Lines 200-207: first modification-day offset, clamped into `[1, 180]`. -/
def daysVariation0 (totalItems dateIdx : ℕ) : ℤ :=
  let dv : ℤ :=
    if 1 < totalItems then
      let linearDays : ℚ := 1 + (dateIdx : ℚ) / ((totalItems : ℚ) - 1) * 179
      let primeVariation : ℕ := dateIdx * 13 % 7
      Int.floor (linearDays + (primeVariation : ℚ))
    else 30
  max 1 (min dv 180)

/-- Lines 221-228: recomputed modification offset bounded by the days
available between creation and the clock (`max_days > 0` in this branch). -/
def overflowDaysVariation (maxDays : ℤ) (totalItems dateIdx : ℕ) : ℤ :=
  let dv : ℤ :=
    if 1 < totalItems then
      let linearDays : ℚ :=
        1 + (dateIdx : ℚ) / ((totalItems : ℚ) - 1) * ((maxDays : ℚ) - 1)
      let variationDivisor : ℤ := max 1 (min 7 (maxDays / 10))
      let primeVariation : ℤ :=
        if 0 < variationDivisor then (dateIdx : ℤ) * 13 % variationDivisor else 0
      Int.floor (linearDays + (primeVariation : ℚ))
    else max 1 (maxDays / 2)
  max 1 (min dv maxDays)

/-- The modification value together with the current `mod_hours` /
`mod_minutes` / `mod_seconds` / `mod_microseconds` bindings (Python locals
that later lines 258-260 read, whichever branch last assigned them). -/
structure ModState where
  modified : ℤ
  mh : ℤ
  mm : ℤ
  ms : ℤ
  mu : ℤ

/-- Lines 218-256: the not-in-the-future fix-up of the modification date. -/
def modOverflow (now created modified0 mh mm ms mu : ℤ)
    (totalItems dateIdx : ℕ) : ModState :=
  if modified0 > now then
    let maxDays := timedeltaDays now created
    if maxDays > 0 then
      let dv := overflowDaysVariation maxDays totalItems dateIdx
      let modified := addDays created dv
      -- lines 230-234 recompute the same time-of-day values from `created`
      let mh := modHours created dateIdx
      let mm := modMinutes created dateIdx
      let ms := modSeconds created dateIdx
      let mu := modMicroseconds dateIdx
      if modified ≤ now then ⟨replaceTime modified mh mm ms mu, mh, mm, ms, mu⟩
      else
        let mh2 := min (hourOf created + 1) 17
        let modified2 := replaceTime modified mh2 mm ms mu
        if modified2 > now then ⟨replaceSecMicro now ms mu, mh2, mm, ms, mu⟩
        else ⟨modified2, mh2, mm, ms, mu⟩
    else
      if dayIndex created = dayIndex now then
        let hoursOffset := 1 + (dateIdx : ℤ) % 2
        let ms2 := (dateIdx : ℤ) * 19 % 60
        let mu2 := (dateIdx : ℤ) * 29 % 1000000
        let modified :=
          replaceMicro (created + hoursOffset * usPerHour + ms2 * usPerSecond) mu2
        if modified > now then
          let modified2 := replaceMicro (created + ms2 * usPerSecond) mu2
          if modified2 > now then ⟨created, mh, mm, ms2, mu2⟩
          else ⟨modified2, mh, mm, ms2, mu2⟩
        else ⟨modified, mh, mm, ms2, mu2⟩
      else ⟨created, mh, mm, ms, mu⟩
  else ⟨modified0, mh, mm, ms, mu⟩

/-- Lines 258-285: the unconditional invariant-enforcement passes. -/
def finalPass (now created0 modified0 mh mm ms mu : ℤ) (dateIdx : ℕ) : ℤ × ℤ :=
  let modified :=
    if modified0 < created0 then replaceTime (addDays created0 1) mh mm ms mu
    else modified0
  let cm :=
    if created0 > now then
      let created1 := replaceTime (addDays now (-1)) (createdHours dateIdx)
        (createdMinutes dateIdx) (createdSeconds dateIdx) (createdMicroseconds dateIdx)
      let modified1 :=
        if modified ≤ created1 then
          replaceTime (addDays created1 1) (modHours created1 dateIdx)
            (modMinutes created1 dateIdx) (modSeconds created1 dateIdx)
            (modMicroseconds dateIdx)
        else modified
      let modified2 := if modified1 > now then now else modified1
      (created1, modified2)
    else (created0, modified)
  if cm.2 > now then
    let maxModified := min now (addDays cm.1 1)
    let modified3 := if maxModified < cm.1 then cm.1 else maxModified
    (cm.1, modified3)
  else cm

/-- Lines 200-285 given the already-computed creation date: derive the
modification date (lines 200-216), run the not-in-the-future fix-up
(lines 218-256) and the final invariant passes (lines 258-285). -/
def modStagePair (now created : ℤ) (totalItems dateIdx : ℕ) : ℤ × ℤ :=
  let dv := daysVariation0 totalItems dateIdx
  let modified := addDays created dv
  let mh := modHours created dateIdx
  let mm := modMinutes created dateIdx
  let ms := modSeconds created dateIdx
  let mu := modMicroseconds dateIdx
  let modified := replaceTime modified mh mm ms mu
  let st := modOverflow now created modified mh mm ms mu totalItems dateIdx
  finalPass now created st.modified st.mh st.mm st.ms st.mu dateIdx

/-- The per-record date computation of `update_entity_dates` (lines 94-285):
given the clock, `months_back`, the batch size, the record's (possibly
shuffled) index, and the parsed original reference dates, compute the
`(created, modified)` pair written to the datastore. -/
def update_entity_dates_record (now : ℤ) (monthsBack totalItems dateIdx : ℕ)
    (origCreated origModified : Option ℤ) : ℤ × ℤ :=
  let daysRange := monthsBack * 30
  -- lines 169-174: the parsed original modification date, clamped to the
  -- clock; line 209 then overwrites it unconditionally (dead store)
  let _modifiedFromRef : Option ℤ :=
    origModified.map fun m => if m > now then now else m
  let created := createdStage now daysRange totalItems dateIdx origCreated
  modStagePair now created totalItems dateIdx


/-! ## `parse_anthropic_response` (src/utils/api_utils.py)

The extraction pipeline works on `List Char` (Python `str`).  `json.loads`
is modelled by a recursive-descent parser mirroring CPython's `json` scanner
(`json/decoder.py` / `json/scanner.py`): same branch structure, same
whitespace set, and error KINDS matching the `JSONDecodeError` messages the
repair branch inspects ("Expecting ',' delimiter" / "Expecting ':'
delimiter").  Simplifications, each noted in place: numbers keep their raw
literal text (Python would convert to int/float); duplicate object keys are
kept in order (Python's dict keeps the last); `NaN`/`Infinity` constants and
`\uXXXX` surrogate pairing are not modelled.  The parser is given fuel
`3 * length + 3`, enough that it never runs out (every descent step consumes
at least one character per three fuel units). -/

/-- A parsed JSON value (the result of `json.loads`). -/
inductive JsonVal where
  | str (s : List Char)
  | num (raw : List Char)
  | bool (b : Bool)
  | null
  | arr (elems : List JsonVal)
  | obj (fields : List (List Char × JsonVal))

/-- The `JSONDecodeError` kinds relevant to the pipeline (the repair branch
looks only at the message text). -/
inductive PyJsonErr where
  | expectingValue
  | expectingCommaDelimiter
  | expectingColonDelimiter
  | expectingPropertyName
  | unterminatedString
  | invalidControlChar
  | invalidEscape
  | extraData
deriving DecidableEq, Repr

/-- `"Expecting ',' delimiter" in str(e) or "Expecting ':' delimiter" in
str(e)` (api_utils.py line 526). -/
def PyJsonErr.isDelimiterErr : PyJsonErr → Bool
  | .expectingCommaDelimiter => true
  | .expectingColonDelimiter => true
  | _ => false

/-- The whitespace the CPython json scanner skips (`WHITESPACE = [ \t\n\r]`). -/
def isJsonWs (c : Char) : Bool := c = ' ' || c = '\t' || c = '\n' || c = '\r'

def skipJsonWs : List Char → List Char
  | [] => []
  | c :: rest => if isJsonWs c then skipJsonWs rest else c :: rest

/-- JSON string escape table (`BACKSLASH` in the decoder). -/
def jsonEscapeChar : Char → Option Char
  | '"' => some '"'
  | '\\' => some '\\'
  | '/' => some '/'
  | 'b' => some '\x08'
  | 'f' => some '\x0C'
  | 'n' => some '\n'
  | 'r' => some '\r'
  | 't' => some '\t'
  | _ => none

def hexDigitVal (c : Char) : Option ℕ :=
  if '0' ≤ c ∧ c ≤ '9' then some (c.toNat - 48)
  else if 'a' ≤ c ∧ c ≤ 'f' then some (c.toNat - 87)
  else if 'A' ≤ c ∧ c ≤ 'F' then some (c.toNat - 55)
  else none

/-- `scanstring` (strict mode): decode until the closing quote; raw control
characters are rejected, escapes are decoded (`\uXXXX` as a single code
point, without surrogate pairing). -/
def scanJsonString : List Char → List Char → Except PyJsonErr (List Char × List Char)
  | [], _ => .error .unterminatedString
  | c :: rest, acc =>
    if c = '"' then .ok (acc, rest)
    else if c = '\\' then
      match rest with
      | 'u' :: a :: b :: c2 :: d :: r2 =>
        match hexDigitVal a, hexDigitVal b, hexDigitVal c2, hexDigitVal d with
        | some va, some vb, some vc, some vd =>
          scanJsonString r2 (acc ++ [Char.ofNat (va * 4096 + vb * 256 + vc * 16 + vd)])
        | _, _, _, _ => .error .invalidEscape
      | e :: r2 =>
        match jsonEscapeChar e with
        | some c3 => scanJsonString r2 (acc ++ [c3])
        | none => .error .invalidEscape
      | [] => .error .unterminatedString
    else if c.toNat < 32 then .error .invalidControlChar
    else scanJsonString rest (acc ++ [c])

def takeDigits : List Char → List Char × List Char
  | [] => ([], [])
  | c :: rest =>
    if c.isDigit then
      let p := takeDigits rest
      (c :: p.1, p.2)
    else ([], c :: rest)

/-- Integer part of the json NUMBER_RE: `(?:0|[1-9]\d*)`. -/
def scanIntPart : List Char → Option (List Char × List Char)
  | [] => none
  | '0' :: rest => some (['0'], rest)
  | c :: rest =>
    if c.isDigit then
      let p := takeDigits rest
      some (c :: p.1, p.2)
    else none

/-- Fraction part `(?:\.\d+)?`. -/
def scanFracPart : List Char → List Char × List Char
  | '.' :: rest =>
    match takeDigits rest with
    | ([], _) => ([], '.' :: rest)
    | (ds, r) => ('.' :: ds, r)
  | s => ([], s)

/-- Exponent part `(?:[eE][-+]?\d+)?`. -/
def scanExpPart : List Char → List Char × List Char
  | e :: sg :: rest =>
    if e = 'e' ∨ e = 'E' then
      if sg = '+' ∨ sg = '-' then
        match takeDigits rest with
        | ([], _) => ([], e :: sg :: rest)
        | (ds, r) => (e :: sg :: ds, r)
      else
        match takeDigits (sg :: rest) with
        | ([], _) => ([], e :: sg :: rest)
        | (ds, r) => (e :: ds, r)
    else ([], e :: sg :: rest)
  | s => ([], s)

/-- The json number regex `-?(?:0|[1-9]\d*)(?:\.\d+)?(?:[eE][-+]?\d+)?`
applied at the current position; returns the raw literal and the rest. -/
def scanJsonNumber : List Char → Option (List Char × List Char)
  | '-' :: rest =>
    (scanIntPart rest).map fun p =>
      let f := scanFracPart p.2
      let e := scanExpPart f.2
      ('-' :: p.1 ++ f.1 ++ e.1, e.2)
  | s =>
    (scanIntPart s).map fun p =>
      let f := scanFracPart p.2
      let e := scanExpPart f.2
      (p.1 ++ f.1 ++ e.1, e.2)

mutual

/-- `scan_once`: dispatch on the character at the current position. -/
def scanJsonValue : ℕ → List Char → Except PyJsonErr (JsonVal × List Char)
  | 0, _ => .error .expectingValue
  | fuel + 1, s =>
    match s with
    | '"' :: rest => (scanJsonString rest []).map fun p => (.str p.1, p.2)
    | '\x7b' :: rest => parseJsonObj fuel rest
    | '[' :: rest => parseJsonArr fuel rest
    | 'n' :: 'u' :: 'l' :: 'l' :: rest => .ok (.null, rest)
    | 't' :: 'r' :: 'u' :: 'e' :: rest => .ok (.bool true, rest)
    | 'f' :: 'a' :: 'l' :: 's' :: 'e' :: rest => .ok (.bool false, rest)
    | _ =>
      match scanJsonNumber s with
      | some p => .ok (.num p.1, p.2)
      | none => .error .expectingValue

/-- `JSONArray` after the opening bracket. -/
def parseJsonArr : ℕ → List Char → Except PyJsonErr (JsonVal × List Char)
  | 0, _ => .error .expectingValue
  | fuel + 1, s =>
    match skipJsonWs s with
    | ']' :: rest => .ok (.arr [], rest)
    | s1 => parseJsonArrElems fuel s1 []

/-- The `JSONArray` loop: value, then `]` to close or `,` (with whitespace
skipping) to continue; anything else — including end of input on truncated
text — is "Expecting ',' delimiter". -/
def parseJsonArrElems : ℕ → List Char → List JsonVal →
    Except PyJsonErr (JsonVal × List Char)
  | 0, _, _ => .error .expectingValue
  | fuel + 1, s, acc =>
    match scanJsonValue fuel s with
    | .error e => .error e
    | .ok (v, r) =>
      match skipJsonWs r with
      | ']' :: r2 => .ok (.arr (acc ++ [v]), r2)
      | ',' :: r2 => parseJsonArrElems fuel (skipJsonWs r2) (acc ++ [v])
      | _ => .error .expectingCommaDelimiter

/-- `JSONObject` after the opening brace. -/
def parseJsonObj : ℕ → List Char → Except PyJsonErr (JsonVal × List Char)
  | 0, _ => .error .expectingValue
  | fuel + 1, s =>
    match s with
    | '"' :: rest => parseJsonObjPairs fuel rest []
    | _ =>
      match skipJsonWs s with
      | '\x7d' :: rest => .ok (.obj [], rest)
      | '"' :: rest => parseJsonObjPairs fuel rest []
      | _ => .error .expectingPropertyName

/-- The `JSONObject` loop, entered just after a key's opening quote. -/
def parseJsonObjPairs : ℕ → List Char → List (List Char × JsonVal) →
    Except PyJsonErr (JsonVal × List Char)
  | 0, _, _ => .error .expectingValue
  | fuel + 1, s, acc =>
    match scanJsonString s [] with
    | .error e => .error e
    | .ok (key, r) =>
      match skipJsonWs r with
      | ':' :: r2 =>
        match scanJsonValue fuel (skipJsonWs r2) with
        | .error e => .error e
        | .ok (v, r3) =>
          match skipJsonWs r3 with
          | '\x7d' :: r4 => .ok (.obj (acc ++ [(key, v)]), r4)
          | ',' :: r4 =>
            match skipJsonWs r4 with
            | '"' :: r5 => parseJsonObjPairs fuel r5 (acc ++ [(key, v)])
            | _ => .error .expectingPropertyName
          | _ => .error .expectingCommaDelimiter
      | _ => .error .expectingColonDelimiter

end

/-- `json.loads`: skip leading whitespace, scan one value, require only
whitespace after it ("Extra data" otherwise). -/
def json_loads (s : List Char) : Except PyJsonErr JsonVal :=
  match scanJsonValue (3 * s.length + 3) (skipJsonWs s) with
  | .error e => .error e
  | .ok (v, rest) =>
    if skipJsonWs rest = [] then .ok v else .error .extraData

/-! ### The sanitizer (api_utils.py lines 516-519) -/

/-- Python `\s` for the sanitizer regexes (ASCII part). -/
def isPyWs (c : Char) : Bool :=
  c = ' ' || c = '\t' || c = '\n' || c = '\r' || c = '\x0b' || c = '\x0c'

/-- `str.strip()` (ASCII whitespace). -/
def pyStrip (s : List Char) : List Char :=
  ((s.dropWhile isPyWs).reverse.dropWhile isPyWs).reverse

/-- Line 517: `re.sub(r"[\x00-\x08\x0B\x0C\x0E-\x1F\x7F]", " ", ·)`. -/
def ctrlToSpace (s : List Char) : List Char :=
  s.map fun c =>
    if c.toNat ≤ 8 ∨ c.toNat = 11 ∨ c.toNat = 12 ∨
        (14 ≤ c.toNat ∧ c.toNat ≤ 31) ∨ c.toNat = 127 then ' '
    else c

/-- Line 518: `re.sub(r"\s+", " ", ·)` — collapse every whitespace run to a
single space (the flag records whether the previous character was part of a
run). -/
def collapseWsGo (prevWs : Bool) : List Char → List Char
  | [] => []
  | c :: rest =>
    if isPyWs c then
      if prevWs then collapseWsGo true rest
      else ' ' :: collapseWsGo true rest
    else c :: collapseWsGo false rest

def collapseWs (s : List Char) : List Char := collapseWsGo false s

/-- Line 519: `re.sub(r",(\s*[}\]])", r"\1", ·)` — drop a comma directly
before a closing brace/bracket.  This runs after `collapseWs`, so a
whitespace run in the lookahead is at most one space. -/
def removeTrailingCommas : List Char → List Char
  | [] => []
  | c :: rest =>
    if c = ',' then
      match rest with
      | '\x7d' :: r => '\x7d' :: removeTrailingCommas r
      | ']' :: r => ']' :: removeTrailingCommas r
      | ' ' :: '\x7d' :: r => ' ' :: '\x7d' :: removeTrailingCommas r
      | ' ' :: ']' :: r => ' ' :: ']' :: removeTrailingCommas r
      | r => ',' :: removeTrailingCommas r
    else c :: removeTrailingCommas rest

/-- Lines 516-519. -/
def sanitizeJson (s : List Char) : List Char :=
  removeTrailingCommas (collapseWs (ctrlToSpace (pyStrip s)))

/-! ### Locating the array (api_utils.py lines 418-512) -/

/-- Split at the first occurrence of three backticks. -/
def splitAtTicks : List Char → Option (List Char × List Char)
  | [] => none
  | c :: rest =>
    if c = '\x60' ∧ rest.take 2 = ['\x60', '\x60'] then some ([], rest.drop 2)
    else (splitAtTicks rest).map fun p => (c :: p.1, p.2)

/-- Line 418: `re.search(r"```(?:json)?\s*(.*?)\s*```", text, re.DOTALL)`
followed by `.group(1).strip()` (line 420).  The leftmost match opens at the
first triple-backtick; the optional `json` tag is consumed when present; the
lazy group ends at the next triple-backtick; the surrounding `\s*` plus
`.strip()` amount to stripping the enclosed text. -/
def pyFenceSearch (text : List Char) : Option (List Char) :=
  match splitAtTicks text with
  | none => none
  | some (_, after) =>
    let after2 := if after.take 4 = ['j', 's', 'o', 'n'] then after.drop 4 else after
    match splitAtTicks after2 with
    | none => none
    | some (body, _) => some (pyStrip body)

/-- `text.find("[")` and slicing from there: the suffix starting at the
first `[`, if any. -/
def fromFirstBracket (s : List Char) : Option (List Char) :=
  match s.dropWhile (· ≠ '[') with
  | [] => none
  | t => some t

/-- Lines 418-435: resolve the scan text.  When a fenced block is found and
contains a `[`, the scan text is the block from that `[`; otherwise the scan
starts at the first `[` of the whole text; failing that, the preamble
probes ("Here's[", "Here is[", "JSON:[", "Array:[") are tried — note each
probe needs a literal `[`, so they can never succeed when the text has no
`[` at all. -/
def extractStartText (text : List Char) : Option (List Char) :=
  match pyFenceSearch text with
  | some extracted =>
    match fromFirstBracket extracted with
    | some t => some t
    | none => fromFirstBracket text
  | none => fromFirstBracket text

/-- Bracket-scan state (lines 443-447). -/
structure ScanSt where
  bracketCount : ℤ
  inString : Bool
  escapeNext : Bool
deriving DecidableEq, Repr

/-- One step of the string-aware bracket scan (lines 448-470); the flag
reports that the bracket depth returned to zero at this character. -/
def scanStep (st : ScanSt) (c : Char) : ScanSt × Bool :=
  if st.escapeNext then ({ st with escapeNext := false }, false)
  else if c = '\\' then ({ st with escapeNext := true }, false)
  else if c = '"' then ({ st with inString := !st.inString }, false)
  else if !st.inString then
    if c = '[' then ({ st with bracketCount := st.bracketCount + 1 }, false)
    else if c = ']' then
      ({ st with bracketCount := st.bracketCount - 1 }, st.bracketCount - 1 = 0)
    else (st, false)
  else (st, false)

/-- All positions (one past the character) where the scan's depth returns to
zero.  The primary scan (lines 443-470) stops at the first such position;
the retry (lines 472-499) records them all and takes the last — so both are
views of this one list. -/
def zeroPointsGo (st : ScanSt) (i : ℕ) : List Char → List ℕ
  | [] => []
  | c :: rest =>
    let p := scanStep st c
    if p.2 then (i + 1) :: zeroPointsGo p.1 (i + 1) rest
    else zeroPointsGo p.1 (i + 1) rest

def zeroPoints (t : List Char) : List ℕ := zeroPointsGo ⟨0, false, false⟩ 0 t

/-- Last index satisfying a predicate. -/
def rfindIdx (p : Char → Bool) : List Char → Option ℕ
  | [] => none
  | c :: rest =>
    match rfindIdx p rest with
    | some i => some (i + 1)
    | none => if p c then some 0 else none

/-- Lines 443-512: the end (exclusive) of the array text within the scan
text (which begins at the `[`): the first balanced close; else the last
balanced close (lines 472-502 — necessarily absent whenever the first scan
found none); else one past the last literal `]` provided it lies strictly
after the start (lines 504-505). -/
def jsonEndOf (t : List Char) : Option ℕ :=
  match (zeroPoints t).head? with
  | some e => some e
  | none =>
    match (zeroPoints t).getLast? with
    | some e => some e
    | none =>
      match rfindIdx (· = ']') t with
      | some idx => if 0 < idx then some (idx + 1) else none
      | none => none

/-- The extraction failures (the three `raise` sites, lines 441, 512, and
535-543; the outer handlers re-wrap them as `RuntimeError`). -/
inductive ExtractErr where
  | noArrayFound (snippet : List Char)
  | noArrayEnd
  | parseFailed (e : PyJsonErr) (snippet : List Char)

/-- Lines 521-535: parse; on a missing-delimiter failure truncate to the
last `}` (at positive index) re-closing the array and retry once; any other
failure, or a failed retry, propagates the original error with a bounded
(300-character) snippet of the sanitized text. -/
def parseWithRepair (js : List Char) : Except ExtractErr JsonVal :=
  match json_loads js with
  | .ok v => .ok v
  | .error e =>
    if e.isDelimiterErr then
      match rfindIdx (· = '\x7d') js with
      | some i =>
        if 0 < i then
          match json_loads (js.take (i + 1) ++ [']']) with
          | .ok v => .ok v
          | .error _ => .error (.parseFailed e (js.take 300))
        else .error (.parseFailed e (js.take 300))
      | none => .error (.parseFailed e (js.take 300))
    else .error (.parseFailed e (js.take 300))

/-- `parse_anthropic_response` on the response text (the `content[0].text`
field): locate the array start (fenced block, first `[`, preamble probes),
find a plausible end, sanitize the substring, parse with one repair. -/
def parse_anthropic_response (text : List Char) : Except ExtractErr JsonVal :=
  match extractStartText text with
  | none => .error (.noArrayFound (text.take 500))
  | some t =>
    match jsonEndOf t with
    | none => .error .noArrayEnd
    | some e => parseWithRepair (sanitizeJson (t.take e))


/-! ### Clean string-record families

For the positive extraction claims we consider batches of flat records:
JSON objects mapping string keys to string values, with key/value text drawn
from letters and digits ("clean" strings).  On such text the sanitizer is
the identity and the parser inverts the renderer, which is what the claims
need; the restrictions are forced by the sanitizer (whitespace collapsing
inside string values, comma deletion before closing brackets) rewriting any
richer text. -/

/-- ASCII letters and digits. -/
def cleanChar (c : Char) : Bool :=
  (48 ≤ c.toNat && c.toNat ≤ 57) || (65 ≤ c.toNat && c.toNat ≤ 90) ||
    (97 ≤ c.toNat && c.toNat ≤ 122)

def cleanStr (s : List Char) : Bool := s.all cleanChar

def cleanField (p : List Char × List Char) : Bool := cleanStr p.1 && cleanStr p.2

def cleanObj (fs : List (List Char × List Char)) : Bool := fs.all cleanField

def cleanObjs (objs : List (List (List Char × List Char))) : Bool :=
  objs.all cleanObj

/-- JSON text of a clean string (no escapes needed). -/
def renderJsonStr (s : List Char) : List Char := '"' :: s ++ ['"']

/-- JSON text of one `"key":"value"` field. -/
def renderField (p : List Char × List Char) : List Char :=
  renderJsonStr p.1 ++ ':' :: renderJsonStr p.2

def sepByComma : List (List Char) → List Char
  | [] => []
  | [x] => x
  | x :: rest => x ++ ',' :: sepByComma rest

/-- JSON text of a flat string-valued object. -/
def renderStrObj (fs : List (List Char × List Char)) : List Char :=
  '\x7b' :: sepByComma (fs.map renderField) ++ ['\x7d']

/-- JSON text of an array of flat string-valued objects. -/
def renderStrObjArr (objs : List (List (List Char × List Char))) : List Char :=
  '[' :: sepByComma (objs.map renderStrObj) ++ [']']

/-- The parsed value of a flat string-valued object. -/
def strObjVal (fs : List (List Char × List Char)) : JsonVal :=
  .obj (fs.map fun p => (p.1, .str p.2))

/-- Every comma is immediately followed by `"` or `{` — on such text the
trailing-comma regex never fires. -/
def goodCommas : List Char → Bool
  | [] => true
  | c :: rest =>
    (if c = ',' then
      match rest.head? with
      | some d => d = '"' || d = '\x7b'
      | none => false
     else true) && goodCommas rest

/-- Characters the sanitizer leaves alone: printable, non-whitespace,
not DEL. -/
def sanitizeInert (c : Char) : Bool := 33 ≤ c.toNat && c.toNat ≠ 127

/-- The fixed incomplete trailing element used in the truncation family:
`{"t":["u"]` — an object cut off mid-value whose nested array supplies the
`]` that the fallback end-search finds. -/
def truncTail : List Char :=
  ['\x7b', '"', 't', '"', ':', '[', '"', 'u', '"', ']']


/-- State of the bracket scan after a chunk of characters. -/
def scanStFold (st : ScanSt) : List Char → ScanSt
  | [] => st
  | c :: rest => scanStFold (scanStep st c).1 rest

/-- Fuel budget for parsing a rendered batch of flat records (four units
per record plus one per field). -/
def objsFuel : List (List (List Char × List Char)) → ℕ
  | [] => 0
  | o :: rest => o.length + 4 + objsFuel rest

/-- The object text as consumed by `parseJsonObjPairs`, starting just after
a key's opening quote. -/
def pairsText : List (List Char × List Char) → List Char
  | [] => ['\x7d']
  | [p] => p.1 ++ '"' :: ':' :: renderJsonStr p.2 ++ ['\x7d']
  | p :: rest => p.1 ++ '"' :: ':' :: renderJsonStr p.2 ++ ',' :: '"' :: pairsText rest

/-! ## Theorems -/

/-! ### Basic calendar lemmas -/
theorem dayStart_le (t : ℤ) : dayStart t ≤ t := by
  unfold dayStart dayIndex usPerDay
  omega

theorem lt_dayStart_add (t : ℤ) : t < dayStart t + usPerDay := by
  unfold dayStart dayIndex usPerDay
  omega

theorem dayStart_addDays (t k : ℤ) :
    dayStart (addDays t k) = dayStart t + k * usPerDay := by
  unfold dayStart dayIndex addDays usPerDay
  omega

theorem dayIndex_addDays (t k : ℤ) :
    dayIndex (addDays t k) = dayIndex t + k := by
  unfold dayIndex addDays usPerDay
  omega

theorem dayStart_mono {a b : ℤ} (h : a ≤ b) : dayStart a ≤ dayStart b := by
  unfold dayStart dayIndex usPerDay
  omega

theorem replaceTime_lower (t : ℤ) {h m s u : ℤ}
    (hh : 0 ≤ h) (hm : 0 ≤ m) (hs : 0 ≤ s) (hu : 0 ≤ u) :
    dayStart t ≤ replaceTime t h m s u := by
  unfold replaceTime dayStart dayIndex usPerHour usPerMinute usPerSecond usPerDay
  omega

theorem replaceTime_upper (t : ℤ) {h m s u : ℤ}
    (hh : h ≤ 23) (hm : m ≤ 59) (hs : s ≤ 59) (hu : u < 1000000) :
    replaceTime t h m s u < dayStart t + usPerDay := by
  unfold replaceTime dayStart dayIndex usPerHour usPerMinute usPerSecond usPerDay
  omega

theorem weekday_addDays (t k : ℤ) :
    weekdayOf (addDays t k) = (weekdayOf t + k) % 7 := by
  simp only [weekdayOf, dayIndex_addDays]
  omega

theorem skip_weekend_eq (t : ℤ) :
    skip_weekend t =
      if weekdayOf t = 5 then addDays t 2
      else if weekdayOf t = 6 then addDays t 1 else t := rfl

/-- C10: `skip_weekend` never lands on Saturday (weekday 5) or Sunday
(weekday 6), leaves weekday inputs unchanged, and is idempotent. -/
theorem skip_weekend_spec (t : ℤ) :
    weekdayOf (skip_weekend t) ≠ 5 ∧ weekdayOf (skip_weekend t) ≠ 6 ∧
    (weekdayOf t ≠ 5 → weekdayOf t ≠ 6 → skip_weekend t = t) ∧
    skip_weekend (skip_weekend t) = skip_weekend t := by
  by_cases h5 : weekdayOf t = 5
  · have h2 : weekdayOf (addDays t 2) = 0 := by rw [weekday_addDays, h5]; decide
    have hsw : skip_weekend t = addDays t 2 := by rw [skip_weekend_eq, if_pos h5]
    rw [hsw]
    refine ⟨by rw [h2]; decide, by rw [h2]; decide, fun h _ => absurd h5 h, ?_⟩
    rw [skip_weekend_eq, h2]
    norm_num
  · by_cases h6 : weekdayOf t = 6
    · have h1 : weekdayOf (addDays t 1) = 0 := by rw [weekday_addDays, h6]; decide
      have hsw : skip_weekend t = addDays t 1 := by
        rw [skip_weekend_eq, if_neg h5, if_pos h6]
      rw [hsw]
      refine ⟨by rw [h1]; decide, by rw [h1]; decide, fun _ h => absurd h6 h, ?_⟩
      rw [skip_weekend_eq, h1]
      norm_num
    · have hsw : skip_weekend t = t := by
        rw [skip_weekend_eq, if_neg h5, if_neg h6]
      rw [hsw]
      exact ⟨h5, h6, fun _ _ => rfl, hsw⟩

theorem dedupGo_subset_keys {l : List Entity} {seen : List String} {e : Entity}
    (h : e ∈ dedupGo l seen) : e.key ∉ seen ∧ e.getName.trim ≠ "" := by
  induction l generalizing seen with
  | nil => simp [dedupGo] at h
  | cons a rest ih =>
    simp only [dedupGo] at h
    by_cases hemp : a.getName.trim = ""
    · rw [if_pos hemp] at h
      exact ih h
    · rw [if_neg hemp] at h
      by_cases hseen : a.getName.trim.toLower ∈ seen
      · rw [if_pos hseen] at h
        exact ih h
      · rw [if_neg hseen] at h
        rcases List.mem_cons.mp h with he | he
        · subst he
          exact ⟨hseen, hemp⟩
        · have := ih he
          refine ⟨fun hk => this.1 (List.mem_cons_of_mem _ hk), this.2⟩

theorem dedupGo_seen_mono {l : List Entity} {seen : List String} {e : Entity}
    (h : e ∈ dedupGo l seen) : e ∈ l := by
  induction l generalizing seen with
  | nil => simp [dedupGo] at h
  | cons a rest ih =>
    simp only [dedupGo] at h
    by_cases hemp : a.getName.trim = ""
    · rw [if_pos hemp] at h
      exact List.mem_cons_of_mem _ (ih h)
    · rw [if_neg hemp] at h
      by_cases hseen : a.getName.trim.toLower ∈ seen
      · rw [if_pos hseen] at h
        exact List.mem_cons_of_mem _ (ih h)
      · rw [if_neg hseen] at h
        rcases List.mem_cons.mp h with he | he
        · exact he ▸ List.mem_cons_self a rest
        · exact List.mem_cons_of_mem _ (ih he)

theorem dedupGo_pairwise (l : List Entity) (seen : List String) :
    (dedupGo l seen).Pairwise (fun a b => a.key ≠ b.key) := by
  induction l generalizing seen with
  | nil => simp [dedupGo]
  | cons a rest ih =>
    simp only [dedupGo]
    by_cases hemp : a.getName.trim = ""
    · rw [if_pos hemp]; exact ih seen
    · rw [if_neg hemp]
      by_cases hseen : a.getName.trim.toLower ∈ seen
      · rw [if_pos hseen]; exact ih seen
      · rw [if_neg hseen]
        refine List.Pairwise.cons ?_ (ih _)
        intro b hb hkey
        have := (dedupGo_subset_keys hb).1
        apply this
        have : a.key = a.getName.trim.toLower := rfl
        rw [← hkey, this]
        exact List.mem_cons_self _ _

theorem dedupGo_sublist (l : List Entity) (seen : List String) :
    (dedupGo l seen).Sublist l := by
  induction l generalizing seen with
  | nil => simp [dedupGo]
  | cons a rest ih =>
    simp only [dedupGo]
    by_cases hemp : a.getName.trim = ""
    · rw [if_pos hemp]; exact (ih seen).cons a
    · rw [if_neg hemp]
      by_cases hseen : a.getName.trim.toLower ∈ seen
      · rw [if_pos hseen]; exact (ih seen).cons a
      · rw [if_neg hseen]; exact (ih _).cons₂ a

theorem dedupGo_first {l : List Entity} {seen : List String} {e : Entity}
    (h : e ∈ dedupGo l seen) :
    (l.filter fun x => decide (x.getName.trim ≠ "") && (x.key == e.key)).head?
      = some e := by
  induction l generalizing seen with
  | nil => simp [dedupGo] at h
  | cons a rest ih =>
    simp only [dedupGo] at h
    by_cases hemp : a.getName.trim = ""
    · rw [if_pos hemp] at h
      rw [List.filter_cons]
      have : (decide (a.getName.trim ≠ "") && (a.key == e.key)) = false := by
        simp [hemp]
      rw [this]
      exact ih h
    · rw [if_neg hemp] at h
      by_cases hseen : a.getName.trim.toLower ∈ seen
      · rw [if_pos hseen] at h
        rw [List.filter_cons]
        have hne : a.key ≠ e.key := by
          intro hk
          exact (dedupGo_subset_keys h).1 (hk ▸ hseen)
        have : (decide (a.getName.trim ≠ "") && (a.key == e.key)) = false := by
          simp [hne]
        rw [this]
        exact ih h
      · rw [if_neg hseen] at h
        rcases List.mem_cons.mp h with he | he
        · subst he
          rw [List.filter_cons]
          have : (decide (e.getName.trim ≠ "") && (e.key == e.key)) = true := by
            simp [hemp]
          rw [this]
          rfl
        · rw [List.filter_cons]
          have hne : a.key ≠ e.key := by
            intro hk
            have := (dedupGo_subset_keys he).1
            exact this (hk ▸ List.mem_cons_self _ _)
          have : (decide (a.getName.trim ≠ "") && (a.key == e.key)) = false := by
            simp [hne]
          rw [this]
          exact ih he

/-- C9: the dedup step keeps no two records with the same case-insensitive
trimmed name, discards every record with an empty or missing name, keeps the
first occurrence of each name, and preserves first-seen order (the output is a
sublist of the input). -/
theorem dedupEntities_spec (l : List Entity) :
    (dedupEntities l).Pairwise (fun a b => a.key ≠ b.key) ∧
    (∀ e ∈ dedupEntities l, e.getName.trim ≠ "") ∧
    (∀ e ∈ dedupEntities l,
      (l.filter fun x => decide (x.getName.trim ≠ "") && (x.key == e.key)).head?
        = some e) ∧
    (dedupEntities l).Sublist l := by
  refine ⟨dedupGo_pairwise l [], ?_, ?_, dedupGo_sublist l []⟩
  · intro e he
    exact (dedupGo_subset_keys he).2
  · intro e he
    exact dedupGo_first he

theorem euLoop_found_not_mem {orig : ℤ} {used : Finset ℤ}
    {minD maxD : Option ℤ} :
    ∀ {l : List ℕ} {last d : ℤ},
      euLoop orig used minD maxD l last = .found d → d ∉ used := by
  intro l
  induction l with
  | nil =>
    intro last d h
    simp [euLoop] at h
  | cons a rest ih =>
    intro last d h
    simp only [euLoop] at h
    cases hp : euProbe orig minD maxD a with
    | inr d2 =>
      rw [hp] at h
      simp at h
    | inl d1 =>
      rw [hp] at h
      dsimp only at h
      by_cases hm : d1 ∈ used
      · rw [if_pos hm] at h
        exact ih h
      · rw [if_neg hm] at h
        cases h
        exact hm

/-- C3 (amended): the returned timestamp is not in the used-set, unless the
probe loop never located a fresh slot — because the one-day budget of 86400
one-second steps ran out, or because a backward probe (taken after a forward
probe passed the max bound) fell below the min bound and stopped the search
early.  In those loop-fall-through cases a best-effort value is returned. -/
theorem ensure_unique_datetime_spec (date : ℤ) (used : Finset ℤ)
    (minD maxD : Option ℤ) :
    (ensure_unique_datetime date used minD maxD).1 ∉ used ∨
    (∀ d, euLoop (euInit date minD maxD) used minD maxD
        (List.range' 1 86400) (euInit date minD maxD) ≠ EuExit.found d) := by
  cases he : euLoop (euInit date minD maxD) used minD maxD
      (List.range' 1 86400) (euInit date minD maxD) with
  | found d =>
    by_cases h : euInit date minD maxD ∉ used
    · refine Or.inl ?_
      show (ensure_unique_datetime date used minD maxD).1 ∉ used
      unfold ensure_unique_datetime
      rw [if_pos h]
      exact h
    · refine Or.inl ?_
      have hres : (ensure_unique_datetime date used minD maxD).1 = d := by
        unfold ensure_unique_datetime
        rw [if_neg h, he]
      rw [hres]
      exact euLoop_found_not_mem he
  | broke d last =>
    by_cases h : euInit date minD maxD ∉ used
    · refine Or.inl ?_
      show (ensure_unique_datetime date used minD maxD).1 ∉ used
      unfold ensure_unique_datetime
      rw [if_pos h]
      exact h
    · refine Or.inr fun d2 hcontra => ?_
      exact EuExit.noConfusion hcontra
  | exhausted d =>
    by_cases h : euInit date minD maxD ∉ used
    · refine Or.inl ?_
      show (ensure_unique_datetime date used minD maxD).1 ∉ used
      unfold ensure_unique_datetime
      rw [if_pos h]
      exact h
    · refine Or.inr fun d2 hcontra => ?_
      exact EuExit.noConfusion hcontra

/-- C3 counterexample: with `date = 0`, `used = {0, -1000000}` (the slots at
0s and -1s), `min_date = max_date = 0`, the very first probe steps forward
past the max bound, steps backward below the min bound, and the function
returns `-1000000` — a timestamp already in the used-set — after a single
attempt, with the 86400-step probe budget not remotely exhausted. -/
theorem ensure_unique_datetime_counterexample :
    (ensure_unique_datetime 0 ({0, -1000000} : Finset ℤ) (some 0) (some 0)).1
        ∈ ({0, -1000000} : Finset ℤ) ∧
    euLoop 0 ({0, -1000000} : Finset ℤ) (some 0) (some 0)
        (List.range' 1 86400) 0 = EuExit.broke (-1000000) 0 := by
  constructor
  · decide
  · decide

theorem usPerDay_pos : (0 : ℤ) < usPerDay := by unfold usPerDay; norm_num

theorem createdHours_range (i : ℕ) : 8 ≤ createdHours i ∧ createdHours i ≤ 17 := by
  unfold createdHours; omega

theorem createdMinutes_range (i : ℕ) :
    0 ≤ createdMinutes i ∧ createdMinutes i ≤ 59 := by
  unfold createdMinutes; omega

theorem createdSeconds_range (i : ℕ) :
    0 ≤ createdSeconds i ∧ createdSeconds i ≤ 59 := by
  unfold createdSeconds; omega

theorem createdMicroseconds_range (i : ℕ) :
    0 ≤ createdMicroseconds i ∧ createdMicroseconds i < 1000000 := by
  unfold createdMicroseconds; omega

theorem hourOf_range (t : ℤ) : 0 ≤ hourOf t ∧ hourOf t ≤ 23 := by
  unfold hourOf usPerDay usPerHour; omega

theorem minuteOf_range (t : ℤ) : 0 ≤ minuteOf t ∧ minuteOf t ≤ 59 := by
  unfold minuteOf usPerDay usPerMinute; omega

theorem secondOf_range (t : ℤ) : 0 ≤ secondOf t ∧ secondOf t ≤ 59 := by
  unfold secondOf usPerDay usPerSecond; omega

theorem modHours_range (c : ℤ) (i : ℕ) : 8 ≤ modHours c i ∧ modHours c i ≤ 17 := by
  unfold modHours; omega

theorem modMinutes_range (c : ℤ) (i : ℕ) :
    0 ≤ modMinutes c i ∧ modMinutes c i ≤ 59 := by
  unfold modMinutes; omega

theorem modSeconds_range (c : ℤ) (i : ℕ) :
    0 ≤ modSeconds c i ∧ modSeconds c i ≤ 59 := by
  unfold modSeconds; omega

theorem modMicroseconds_range (i : ℕ) :
    0 ≤ modMicroseconds i ∧ modMicroseconds i < 1000000 := by
  unfold modMicroseconds; omega

theorem modOverflow_range (now created modified0 mh mm ms mu : ℤ) (N i : ℕ)
    (hmh : 0 ≤ mh ∧ mh ≤ 23) (hmm : 0 ≤ mm ∧ mm ≤ 59)
    (hms : 0 ≤ ms ∧ ms ≤ 59) (hmu : 0 ≤ mu ∧ mu < 1000000) :
    (0 ≤ (modOverflow now created modified0 mh mm ms mu N i).mh ∧
      (modOverflow now created modified0 mh mm ms mu N i).mh ≤ 23) ∧
    (0 ≤ (modOverflow now created modified0 mh mm ms mu N i).mm ∧
      (modOverflow now created modified0 mh mm ms mu N i).mm ≤ 59) ∧
    (0 ≤ (modOverflow now created modified0 mh mm ms mu N i).ms ∧
      (modOverflow now created modified0 mh mm ms mu N i).ms ≤ 59) ∧
    (0 ≤ (modOverflow now created modified0 mh mm ms mu N i).mu ∧
      (modOverflow now created modified0 mh mm ms mu N i).mu < 1000000) := by
  have h1 := modHours_range created i
  have h2 := modMinutes_range created i
  have h3 := modSeconds_range created i
  have h4 := modMicroseconds_range i
  have h5 := hourOf_range created
  simp only [modOverflow]
  split_ifs <;> dsimp only <;> omega

theorem replaceTime_gt_of_ge {t lower h m s u : ℤ} (hle : lower ≤ t)
    (hh : 0 ≤ h) (hm : 0 ≤ m) (hs : 0 ≤ s) (hu : 0 ≤ u) :
    addDays lower (-1) < replaceTime t h m s u := by
  have f1 := replaceTime_lower t hh hm hs hu
  have f2 := dayStart_mono hle
  have f3 := lt_dayStart_add lower
  have f4 := usPerDay_pos
  unfold addDays
  linarith

theorem replaceTime_prev_day_lt (now : ℤ) {h m s u : ℤ}
    (hh : h ≤ 23) (hm : m ≤ 59) (hs : s ≤ 59) (hu : u < 1000000) :
    replaceTime (addDays now (-1)) h m s u < now := by
  have f1 := replaceTime_upper (addDays now (-1)) hh hm hs hu
  have f2 := dayStart_addDays now (-1)
  have f3 := dayStart_le now
  have f4 := usPerDay_pos
  linarith

theorem createdFromRef_le_now (now parsed0 : ℤ) (dr N i : ℕ) :
    createdFromRef now parsed0 dr N i ≤ now := by
  have hh := createdHours_range i
  have hm := createdMinutes_range i
  have hs := createdSeconds_range i
  have hu := createdMicroseconds_range i
  have h23 : createdHours i ≤ 23 := le_trans hh.2 (by norm_num)
  have hlt := replaceTime_prev_day_lt now h23 hm.2 hs.2 hu.2
  simp only [createdFromRef]
  split_ifs <;> omega

theorem createdNoRef_le_now (now : ℤ) (dr N i : ℕ) :
    createdNoRef now dr N i ≤ now := by
  have hh := createdHours_range i
  have hm := createdMinutes_range i
  have hs := createdSeconds_range i
  have hu := createdMicroseconds_range i
  have h23 : createdHours i ≤ 23 := le_trans hh.2 (by norm_num)
  have hlt := replaceTime_prev_day_lt now h23 hm.2 hs.2 hu.2
  simp only [createdNoRef]
  split_ifs <;> omega

theorem createdStage_le_now (now : ℤ) (dr N i : ℕ) (oc : Option ℤ) :
    createdStage now dr N i oc ≤ now := by
  cases oc with
  | some parsed => exact createdFromRef_le_now now parsed dr N i
  | none => exact createdNoRef_le_now now dr N i

theorem noRefDaysAgo_bounds (dr N i : ℕ) (hdr : 1 ≤ dr) :
    1 ≤ noRefDaysAgo dr N i ∧ noRefDaysAgo dr N i ≤ (dr : ℤ) := by
  simp only [noRefDaysAgo]
  split_ifs <;> omega

theorem createdFromRef_lower (now parsed0 : ℤ) (dr N i : ℕ) (hdr : 1 ≤ dr) :
    addDays (addDays now (-(dr : ℤ))) (-1) < createdFromRef now parsed0 dr N i := by
  have hh := createdHours_range i
  have hm := createdMinutes_range i
  have hs := createdSeconds_range i
  have hu := createdMicroseconds_range i
  simp only [createdFromRef]
  split_ifs
  all_goals refine replaceTime_gt_of_ge ?_ (by omega) (by omega) (by omega) (by omega)
  all_goals unfold addDays usPerDay
  all_goals omega

theorem createdNoRef_lower (now : ℤ) (dr N i : ℕ) (hdr : 1 ≤ dr) :
    addDays (addDays now (-(dr : ℤ))) (-1) < createdNoRef now dr N i := by
  have hh := createdHours_range i
  have hm := createdMinutes_range i
  have hs := createdSeconds_range i
  have hu := createdMicroseconds_range i
  have hb := noRefDaysAgo_bounds dr N i hdr
  simp only [createdNoRef]
  split_ifs
  all_goals refine replaceTime_gt_of_ge ?_ (by omega) (by omega) (by omega) (by omega)
  all_goals unfold addDays usPerDay
  all_goals omega

theorem createdStage_lower (now : ℤ) (dr N i : ℕ) (oc : Option ℤ) (hdr : 1 ≤ dr) :
    addDays (addDays now (-(dr : ℤ))) (-1) < createdStage now dr N i oc := by
  cases oc with
  | some parsed => exact createdFromRef_lower now parsed dr N i hdr
  | none => exact createdNoRef_lower now dr N i hdr

theorem finalPass_spec (now created0 modified0 mh mm ms mu : ℤ) (i : ℕ)
    (hcle : created0 ≤ now)
    (hmh : 0 ≤ mh ∧ mh ≤ 23) (hmm : 0 ≤ mm ∧ mm ≤ 59)
    (hms : 0 ≤ ms ∧ ms ≤ 59) (hmu : 0 ≤ mu ∧ mu < 1000000) :
    (finalPass now created0 modified0 mh mm ms mu i).1 = created0 ∧
    created0 ≤ (finalPass now created0 modified0 mh mm ms mu i).2 ∧
    (finalPass now created0 modified0 mh mm ms mu i).2 ≤ now := by
  have f1 := replaceTime_lower (addDays created0 1) hmh.1 hmm.1 hms.1 hmu.1
  have f2 := dayStart_addDays created0 1
  have f3 := lt_dayStart_add created0
  have f4 := dayStart_le created0
  have f5 := usPerDay_pos
  have f6 : created0 < addDays created0 1 := by unfold addDays; linarith
  simp only [finalPass]
  split_ifs <;> dsimp only at * <;> omega

theorem modStagePair_spec (now created : ℤ) (N i : ℕ) (hcle : created ≤ now) :
    (modStagePair now created N i).1 = created ∧
    created ≤ (modStagePair now created N i).2 ∧
    (modStagePair now created N i).2 ≤ now := by
  have hr := modOverflow_range now created
      (replaceTime (addDays created (daysVariation0 N i)) (modHours created i)
        (modMinutes created i) (modSeconds created i) (modMicroseconds i))
      (modHours created i) (modMinutes created i) (modSeconds created i)
      (modMicroseconds i) N i
      (by have := modHours_range created i; omega)
      (by have := modMinutes_range created i; omega)
      (by have := modSeconds_range created i; omega)
      (by have := modMicroseconds_range i; omega)
  simp only [modStagePair]
  exact finalPass_spec now created _ _ _ _ _ i hcle hr.1 hr.2.1 hr.2.2.1 hr.2.2.2

/-- C1 (amended): for every clock, positive lookback configuration, batch
size, index and reference-date configuration, the final pair satisfies
`created_at <= now`, `modified_at <= now`, `modified_at >= created_at`, and
`created_at > min_date - 1 day` (the original `created_at >= min_date` can
be undershot by strictly less than one day when the synthesized business-hours
time-of-day falls earlier in the day than the clock's time-of-day). -/
theorem update_entity_dates_invariants (now : ℤ) (mb N i : ℕ)
    (oc om : Option ℤ) (hmb : 1 ≤ mb) :
    (update_entity_dates_record now mb N i oc om).1 ≤ now ∧
    (update_entity_dates_record now mb N i oc om).2 ≤ now ∧
    (update_entity_dates_record now mb N i oc om).1 ≤
      (update_entity_dates_record now mb N i oc om).2 ∧
    addDays (addDays now (-((mb * 30 : ℕ) : ℤ))) (-1) <
      (update_entity_dates_record now mb N i oc om).1 := by
  have hdr : 1 ≤ mb * 30 := by omega
  have hcle := createdStage_le_now now (mb * 30) N i oc
  have hclow := createdStage_lower now (mb * 30) N i oc hdr
  have hsp := modStagePair_spec now (createdStage now (mb * 30) N i oc) N i hcle
  have heq : update_entity_dates_record now mb N i oc om =
      modStagePair now (createdStage now (mb * 30) N i oc) N i := rfl
  rw [heq]
  refine ⟨?_, hsp.2.2, ?_, ?_⟩
  · rw [hsp.1]; exact hcle
  · rw [hsp.1]; exact hsp.2.1
  · rw [hsp.1]; exact hclow

/-- Witness for C1 at a concrete configuration. -/
theorem update_entity_dates_invariants_witness :
    1 ≤ 1 ∧
    ((update_entity_dates_record 0 1 1 0 none none).1 ≤ 0 ∧
     (update_entity_dates_record 0 1 1 0 none none).2 ≤ 0 ∧
     (update_entity_dates_record 0 1 1 0 none none).1 ≤
       (update_entity_dates_record 0 1 1 0 none none).2 ∧
     addDays (addDays 0 (-((1 * 30 : ℕ) : ℤ))) (-1) <
       (update_entity_dates_record 0 1 1 0 none none).1) :=
  ⟨by decide, update_entity_dates_invariants 0 1 1 0 none none (by decide)⟩

/-- C1 counterexample: clock at day 100000, 12:00; `months_back = 36`
(`min_date` = day 98920, 12:00); batch of 2; record 0 carries a very old
parsed reference creation date (day 50).  The blend lands exactly on
`min_date`, and the synthesized 08:00 business-hours time-of-day then pushes
the final creation date to day 98920, 08:00 — four hours before `min_date`,
violating `created_at >= min_date` as stated. -/
theorem update_entity_dates_min_date_counterexample :
    (update_entity_dates_record (100000 * usPerDay + 12 * usPerHour) 36 2 0
        (some (50 * usPerDay)) none).1 <
      addDays (100000 * usPerDay + 12 * usPerHour) (-((36 * 30 : ℕ) : ℤ)) := by
  norm_num [update_entity_dates_record, createdStage, createdFromRef, refDaysOffset,
    timedeltaDays, addDays, replaceTime, dayStart, dayIndex, createdHours,
    createdMinutes, createdSeconds, createdMicroseconds, usPerDay, usPerHour,
    usPerMinute, usPerSecond, modStagePair, daysVariation0, modHours, modMinutes,
    modSeconds, modMicroseconds, hourOf, minuteOf, secondOf, modOverflow,
    overflowDaysVariation, finalPass, replaceSecMicro, replaceMicro]

/-- C2: the reference modification date never reaches the result.  Lines
169-174 parse and clamp `modifiedDateTime` into `modified_date`, but line 209
unconditionally overwrites `modified_date` with the value derived from the
creation date, so the output is independent of the parsed reference
modification date; concretely, with a valid, non-future reference
modification date (day 98950, within the window, clock at day 100000 12:00),
the final modification date differs from it. -/
theorem update_entity_dates_modified_reference_discarded :
    (∀ (now : ℤ) (mb N i : ℕ) (oc om : Option ℤ),
      update_entity_dates_record now mb N i oc om =
        update_entity_dates_record now mb N i oc none) ∧
    98950 * usPerDay ≤ 100000 * usPerDay + 12 * usPerHour ∧
    (update_entity_dates_record (100000 * usPerDay + 12 * usPerHour) 36 2 0
        (some (50 * usPerDay)) (some (98950 * usPerDay))).2 ≠
      98950 * usPerDay := by
  refine ⟨fun _ _ _ _ _ _ => rfl, by norm_num [usPerDay, usPerHour], ?_⟩
  norm_num [update_entity_dates_record, createdStage, createdFromRef, refDaysOffset,
    timedeltaDays, addDays, replaceTime, dayStart, dayIndex, createdHours,
    createdMinutes, createdSeconds, createdMicroseconds, usPerDay, usPerHour,
    usPerMinute, usPerSecond, modStagePair, daysVariation0, modHours, modMinutes,
    modSeconds, modMicroseconds, hourOf, minuteOf, secondOf, modOverflow,
    overflowDaysVariation, finalPass, replaceSecMicro, replaceMicro]

/-- C8 counterexample: with the default window (`days_range = 1080`) and a
batch of 31 records, the no-reference creation-day offsets are not
monotonically non-decreasing in the index: the `(index * 17) mod 54`
variation wraps between index 3 and index 4, giving offsets 159 then 158. -/
theorem noRefDaysAgo_counterexample :
    noRefDaysAgo 1080 31 3 = 159 ∧ noRefDaysAgo 1080 31 4 = 158 := by
  constructor <;> norm_num [noRefDaysAgo]

/-- C8 (amended): for every batch of size `N >= 2` with no reference dates
and shuffle disabled, every creation-day offset computed by
`update_entity_dates` lies in `[1, lookback_days]`, and the batch spans the
window exactly at its boundary records: the offset is exactly 1 at index 0
and exactly `lookback_days` at index `N - 1`.  (Monotonicity in the index
does not hold: the modular variation term wraps around.) -/
theorem noRefDaysAgo_spec (mb N i : ℕ) (hmb : 1 ≤ mb) (hN : 2 ≤ N) :
    (1 ≤ noRefDaysAgo (mb * 30) N i ∧
      noRefDaysAgo (mb * 30) N i ≤ ((mb * 30 : ℕ) : ℤ)) ∧
    noRefDaysAgo (mb * 30) N 0 = 1 ∧
    noRefDaysAgo (mb * 30) N (N - 1) = ((mb * 30 : ℕ) : ℤ) := by
  have hdr : 1 ≤ mb * 30 := by omega
  refine ⟨noRefDaysAgo_bounds _ N i hdr, ?_, ?_⟩
  · simp only [noRefDaysAgo]
    rw [if_pos (show 1 < N by omega)]
    rw [if_pos (show 0 < max 10 (mb * 30 / 20) by omega)]
    norm_num
  · have h1 : 1 ≤ N := by omega
    have hN1 : ((N - 1 : ℕ) : ℚ) = (N : ℚ) - 1 := by
      rw [Nat.cast_sub h1, Nat.cast_one]
    have hne : ((N : ℚ) - 1) ≠ 0 := by
      have h2 : (2 : ℚ) ≤ (N : ℚ) := by exact_mod_cast hN
      linarith
    simp only [noRefDaysAgo]
    rw [if_pos (show 1 < N by omega)]
    rw [if_pos (show 0 < max 10 (mb * 30 / 20) by omega)]
    rw [hN1, div_self hne, one_mul]
    rw [show (1 : ℚ) + (((mb * 30 : ℕ) : ℚ) - 1) = ((mb * 30 : ℕ) : ℚ) by ring]
    rw [Int.floor_add_nat, Int.floor_natCast]
    have h2 : (1 : ℤ) ≤ ((mb * 30 : ℕ) : ℤ) := by exact_mod_cast hdr
    omega

/-- Witness for C8 at a concrete configuration. -/
theorem noRefDaysAgo_spec_witness :
    1 ≤ 36 ∧ 2 ≤ 31 ∧
    ((1 ≤ noRefDaysAgo (36 * 30) 31 5 ∧
       noRefDaysAgo (36 * 30) 31 5 ≤ ((36 * 30 : ℕ) : ℤ)) ∧
     noRefDaysAgo (36 * 30) 31 0 = 1 ∧
     noRefDaysAgo (36 * 30) 31 (31 - 1) = ((36 * 30 : ℕ) : ℤ)) :=
  ⟨by decide, by decide, noRefDaysAgo_spec 36 31 5 (by decide) (by decide)⟩

theorem parse_red_noStart (text : List Char)
    (hs : extractStartText text = none) :
    parse_anthropic_response text = .error (.noArrayFound (text.take 500)) := by
  unfold parse_anthropic_response
  rw [hs]

theorem parse_red_noEnd (text t : List Char)
    (hs : extractStartText text = some t) (he : jsonEndOf t = none) :
    parse_anthropic_response text = .error .noArrayEnd := by
  unfold parse_anthropic_response
  rw [hs]
  dsimp only
  rw [he]

theorem parse_red_some (text t : List Char) (e : ℕ)
    (hs : extractStartText text = some t) (he : jsonEndOf t = some e) :
    parse_anthropic_response text = parseWithRepair (sanitizeJson (t.take e)) := by
  unfold parse_anthropic_response
  rw [hs]
  dsimp only
  rw [he]

theorem parseWithRepair_error_shape (js : List Char) {err : ExtractErr}
    (h : parseWithRepair js = .error err) :
    ∃ perr snip, parseWithRepair js = .error (.parseFailed perr snip) := by
  revert h
  unfold parseWithRepair
  cases hj : json_loads js with
  | ok v =>
    intro h
    exact absurd h (by simp)
  | error perr =>
    by_cases hk : perr.isDelimiterErr
    · simp only [hk, if_true]
      cases hr : rfindIdx (· = '\x7d') js with
      | none =>
        intro _
        exact ⟨perr, _, rfl⟩
      | some i =>
        by_cases hi : 0 < i
        · simp only [hi, if_true]
          cases hj2 : json_loads (js.take (i + 1) ++ [']']) with
          | ok v =>
            intro h
            exact absurd h (by simp)
          | error e2 =>
            intro _
            exact ⟨perr, _, rfl⟩
        · simp only [hi, if_false]
          intro _
          exact ⟨perr, _, rfl⟩
    · simp only [hk, if_false]
      intro _
      exact ⟨perr, _, rfl⟩

/-- C7: `parse_anthropic_response` fails with an extraction error if and
only if no array start is found, or no plausible array end is found, or
JSON parsing together with the one repair attempt fails; on any such input
it produces an error rather than a value. -/
theorem parse_anthropic_response_error_iff (text : List Char) :
    (∃ err, parse_anthropic_response text = .error err) ↔
      (extractStartText text = none ∨
       (∃ t, extractStartText text = some t ∧ jsonEndOf t = none) ∨
       (∃ t e, extractStartText text = some t ∧ jsonEndOf t = some e ∧
         ∃ perr snip,
           parseWithRepair (sanitizeJson (t.take e)) = .error (.parseFailed perr snip))) := by
  cases hs : extractStartText text with
  | none =>
    constructor
    · intro _
      exact Or.inl rfl
    · intro _
      exact ⟨_, parse_red_noStart text hs⟩
  | some t =>
    cases he : jsonEndOf t with
    | none =>
      constructor
      · intro _
        exact Or.inr (Or.inl ⟨t, rfl, he⟩)
      · intro _
        exact ⟨_, parse_red_noEnd text t hs he⟩
    | some e =>
      constructor
      · intro ⟨err, herr⟩
        rw [parse_red_some text t e hs he] at herr
        exact Or.inr (Or.inr ⟨t, e, rfl, he, parseWithRepair_error_shape _ herr⟩)
      · intro h
        rcases h with h | ⟨t2, ht2, he2⟩ | ⟨t2, e2, ht2, he2, perr, snip, hp⟩
        · exact Option.noConfusion h
        · injection ht2 with h2
          subst h2
          rw [he] at he2
          exact Option.noConfusion he2
        · injection ht2 with h2
          subst h2
          rw [he] at he2
          injection he2 with h3
          subst h3
          exact ⟨.parseFailed perr snip,
            (parse_red_some text t e hs he).trans hp⟩

/-- C6 counterexample: on `[{"a": 1}, x]` the extracted substring fails to
parse with "Expecting value" (not a missing-delimiter error), so the code
attempts no repair and propagates the error — even though the single
truncate-to-last-brace-and-reclose repair would have parsed successfully to
`[{"a": 1}]`.  The claim's unconditional "attempts exactly one repair"
is false: the repair is gated on the error kind. -/
theorem parse_repair_counterexample :
    parse_anthropic_response ("[\x7b\"a\": 1\x7d, x]".toList) =
      .error (.parseFailed .expectingValue ("[\x7b\"a\": 1\x7d, x]".toList)) ∧
    rfindIdx (· = '\x7d') (sanitizeJson ("[\x7b\"a\": 1\x7d, x]".toList)) = some 8 ∧
    json_loads
        ((sanitizeJson ("[\x7b\"a\": 1\x7d, x]".toList)).take 9 ++ [']']) =
      .ok (.arr [.obj [("a".toList, .num "1".toList)]]) :=
  ⟨rfl, rfl, rfl⟩

theorem parseWithRepair_repair_ok (js : List Char) (perr : PyJsonErr)
    (i : ℕ) (v : JsonVal) (hp : json_loads js = .error perr)
    (hk : perr.isDelimiterErr = true)
    (hr : rfindIdx (· = '\x7d') js = some i) (hi : 0 < i)
    (hj2 : json_loads (js.take (i + 1) ++ [']']) = .ok v) :
    parseWithRepair js = .ok v := by
  unfold parseWithRepair
  rw [hp]
  dsimp only
  simp only [hk, if_true]
  rw [hr]
  dsimp only
  rw [if_pos hi, hj2]

theorem parseWithRepair_fail_kind (js : List Char) (perr : PyJsonErr)
    (hp : json_loads js = .error perr) (hk : perr.isDelimiterErr = false) :
    parseWithRepair js = .error (.parseFailed perr (js.take 300)) := by
  unfold parseWithRepair
  rw [hp]
  dsimp only
  simp [hk]

theorem parseWithRepair_fail_noBrace (js : List Char) (perr : PyJsonErr)
    (hp : json_loads js = .error perr) (hk : perr.isDelimiterErr = true)
    (hr : rfindIdx (· = '\x7d') js = none) :
    parseWithRepair js = .error (.parseFailed perr (js.take 300)) := by
  unfold parseWithRepair
  rw [hp]
  dsimp only
  simp only [hk, if_true]
  rw [hr]

theorem parseWithRepair_fail_brace0 (js : List Char) (perr : PyJsonErr) (i : ℕ)
    (hp : json_loads js = .error perr) (hk : perr.isDelimiterErr = true)
    (hr : rfindIdx (· = '\x7d') js = some i) (hi : ¬ 0 < i) :
    parseWithRepair js = .error (.parseFailed perr (js.take 300)) := by
  unfold parseWithRepair
  rw [hp]
  dsimp only
  simp only [hk, if_true]
  rw [hr]
  dsimp only
  rw [if_neg hi]

theorem parseWithRepair_fail_retry (js : List Char) (perr e2 : PyJsonErr) (i : ℕ)
    (hp : json_loads js = .error perr) (hk : perr.isDelimiterErr = true)
    (hr : rfindIdx (· = '\x7d') js = some i) (hi : 0 < i)
    (hj2 : json_loads (js.take (i + 1) ++ [']']) = .error e2) :
    parseWithRepair js = .error (.parseFailed perr (js.take 300)) := by
  unfold parseWithRepair
  rw [hp]
  dsimp only
  simp only [hk, if_true]
  rw [hr]
  dsimp only
  rw [if_pos hi, hj2]

/-- C6 (amended): when the extracted, sanitized array substring fails to
parse, the code attempts the single truncate-to-last-`}`-and-reclose repair
only when the parse error is a missing `','`/`':'` delimiter error and a `}`
occurs at positive index; if that retry parses, its value is returned, and
in every other case — wrong error kind, no usable `}`, or failed retry —
the original parse error is propagated as an extraction error carrying a
snippet of the offending text bounded to 300 characters. -/
theorem parse_repair_spec (text t : List Char) (e : ℕ) (perr : PyJsonErr)
    (ht : extractStartText text = some t) (he : jsonEndOf t = some e)
    (hp : json_loads (sanitizeJson (t.take e)) = .error perr) :
    (perr.isDelimiterErr = true ∧
      ∃ i v, rfindIdx (· = '\x7d') (sanitizeJson (t.take e)) = some i ∧ 0 < i ∧
        json_loads ((sanitizeJson (t.take e)).take (i + 1) ++ [']']) = .ok v ∧
        parse_anthropic_response text = .ok v) ∨
    (parse_anthropic_response text =
        .error (.parseFailed perr ((sanitizeJson (t.take e)).take 300)) ∧
      ((sanitizeJson (t.take e)).take 300).length ≤ 300) := by
  have hlen : ((sanitizeJson (t.take e)).take 300).length ≤ 300 := by
    simp
  have hred := parse_red_some text t e ht he
  by_cases hk : perr.isDelimiterErr
  · cases hr : rfindIdx (· = '\x7d') (sanitizeJson (t.take e)) with
    | none =>
      exact Or.inr ⟨hred.trans (parseWithRepair_fail_noBrace _ _ hp hk hr), hlen⟩
    | some i =>
      by_cases hi : 0 < i
      · cases hj2 : json_loads ((sanitizeJson (t.take e)).take (i + 1) ++ [']']) with
        | ok v =>
          exact Or.inl ⟨hk, i, v, rfl, hi, hj2,
            hred.trans (parseWithRepair_repair_ok _ _ i v hp hk hr hi hj2)⟩
        | error e2 =>
          exact Or.inr
            ⟨hred.trans (parseWithRepair_fail_retry _ _ e2 i hp hk hr hi hj2), hlen⟩
      · exact Or.inr
          ⟨hred.trans (parseWithRepair_fail_brace0 _ _ i hp hk hr hi), hlen⟩
  · have hk2 : perr.isDelimiterErr = false := by
      cases hb : perr.isDelimiterErr with
      | true => exact absurd hb hk
      | false => rfl
    exact Or.inr ⟨hred.trans (parseWithRepair_fail_kind _ _ hp hk2), hlen⟩

/-- Witness for C6's amended theorem at a concrete failing input. -/
theorem parse_repair_spec_witness :
    extractStartText ("[\x7b\"a\": 1\x7d, x]".toList) =
      some ("[\x7b\"a\": 1\x7d, x]".toList) ∧
    jsonEndOf ("[\x7b\"a\": 1\x7d, x]".toList) = some 13 ∧
    json_loads
        (sanitizeJson (("[\x7b\"a\": 1\x7d, x]".toList).take 13)) =
      .error .expectingValue ∧
    ((PyJsonErr.expectingValue.isDelimiterErr = true ∧
      ∃ i v, rfindIdx (· = '\x7d')
          (sanitizeJson (("[\x7b\"a\": 1\x7d, x]".toList).take 13)) = some i ∧
        0 < i ∧
        json_loads
          ((sanitizeJson (("[\x7b\"a\": 1\x7d, x]".toList).take 13)).take (i + 1)
            ++ [']']) = .ok v ∧
        parse_anthropic_response ("[\x7b\"a\": 1\x7d, x]".toList) = .ok v) ∨
     (parse_anthropic_response ("[\x7b\"a\": 1\x7d, x]".toList) =
        .error (.parseFailed .expectingValue
          ((sanitizeJson (("[\x7b\"a\": 1\x7d, x]".toList).take 13)).take 300)) ∧
      ((sanitizeJson (("[\x7b\"a\": 1\x7d, x]".toList).take 13)).take 300).length
        ≤ 300)) :=
  ⟨rfl, rfl, rfl,
    parse_repair_spec ("[\x7b\"a\": 1\x7d, x]".toList)
      ("[\x7b\"a\": 1\x7d, x]".toList) 13 .expectingValue rfl rfl rfl⟩

theorem cleanChar_facts (c : Char) (h : cleanChar c = true) :
    48 ≤ c.toNat ∧ c.toNat ≤ 122 := by
  unfold cleanChar at h
  simp only [Bool.or_eq_true, Bool.and_eq_true, decide_eq_true_eq] at h
  omega

theorem cleanChar_ne (c : Char) (h : cleanChar c = true) :
    c ≠ '"' ∧ c ≠ '\\' ∧ c ≠ '[' ∧ c ≠ ']' ∧ c ≠ ',' ∧ c ≠ '\x60' ∧
      c ≠ '\x7b' ∧ c ≠ '\x7d' ∧ c ≠ ':' := by
  unfold cleanChar at h
  simp only [Bool.or_eq_true, Bool.and_eq_true, decide_eq_true_eq] at h
  refine ⟨?_, ?_, ?_, ?_, ?_, ?_, ?_, ?_, ?_⟩ <;>
    (intro hc; rw [hc] at h; revert h; decide)

theorem cleanChar_inert (c : Char) (h : cleanChar c = true) :
    sanitizeInert c = true := by
  have := cleanChar_facts c h
  unfold sanitizeInert
  simp only [Bool.and_eq_true, decide_eq_true_eq]
  omega

theorem inert_not_pyWs (c : Char) (h : sanitizeInert c = true) :
    isPyWs c = false := by
  unfold sanitizeInert at h
  simp only [Bool.and_eq_true, decide_eq_true_eq] at h
  unfold isPyWs
  simp only [Bool.or_eq_false_iff, decide_eq_false_iff_not]
  refine ⟨⟨⟨⟨⟨?_, ?_⟩, ?_⟩, ?_⟩, ?_⟩, ?_⟩ <;>
    (intro hc; rw [hc] at h; revert h; decide)

theorem dropWhile_pyWs_of_inert (s : List Char)
    (h : s.all sanitizeInert = true) : s.dropWhile isPyWs = s := by
  cases s with
  | nil => rfl
  | cons c rest =>
    simp only [List.all_cons, Bool.and_eq_true] at h
    simp [List.dropWhile, inert_not_pyWs c h.1]

theorem pyStrip_of_inert (s : List Char) (h : s.all sanitizeInert = true) :
    pyStrip s = s := by
  unfold pyStrip
  rw [dropWhile_pyWs_of_inert s h]
  rw [dropWhile_pyWs_of_inert s.reverse (by simpa [List.all_reverse] using h)]
  exact List.reverse_reverse s

theorem ctrlToSpace_of_inert (s : List Char) (h : s.all sanitizeInert = true) :
    ctrlToSpace s = s := by
  induction s with
  | nil => rfl
  | cons c rest ih =>
    simp only [List.all_cons, Bool.and_eq_true] at h
    have hc := h.1
    unfold sanitizeInert at hc
    simp only [Bool.and_eq_true, decide_eq_true_eq] at hc
    unfold ctrlToSpace
    simp only [List.map_cons]
    rw [if_neg (by omega)]
    have := ih h.2
    unfold ctrlToSpace at this
    rw [this]

theorem collapseWsGo_of_inert (b : Bool) (s : List Char)
    (h : s.all sanitizeInert = true) : collapseWsGo b s = s := by
  induction s generalizing b with
  | nil => rfl
  | cons c rest ih =>
    simp only [List.all_cons, Bool.and_eq_true] at h
    unfold collapseWsGo
    rw [inert_not_pyWs c h.1]
    simp only [Bool.false_eq_true, if_false]
    rw [ih false h.2]

theorem goodCommas_cons (c : Char) (rest : List Char) :
    goodCommas (c :: rest) =
      ((if c = ',' then
          match rest.head? with
          | some d => decide (d = '"') || decide (d = '\x7b')
          | none => false
        else true) && goodCommas rest) := rfl

theorem gc_append_nocomma (x r : List Char)
    (hx : x.all (fun c => !(c == ',')) = true) :
    goodCommas (x ++ r) = goodCommas r := by
  induction x with
  | nil => rfl
  | cons c rest ih =>
    simp only [List.all_cons, Bool.and_eq_true, Bool.not_eq_true',
      beq_eq_false_iff_ne] at hx
    simp only [List.cons_append]
    rw [goodCommas_cons, if_neg hx.1, ih (by simpa using hx.2), Bool.true_and]

theorem removeTrailingCommas_of_good (s : List Char)
    (h : goodCommas s = true) : removeTrailingCommas s = s := by
  induction s with
  | nil => rfl
  | cons c rest ih =>
    rw [goodCommas_cons] at h
    simp only [Bool.and_eq_true] at h
    by_cases hc : c = ','
    · rw [if_pos hc] at h
      cases rest with
      | nil => simp at h
      | cons d r2 =>
        simp only [List.head?_cons, Bool.or_eq_true, decide_eq_true_eq] at h
        subst hc
        rcases h with ⟨hd | hd, hrest⟩ <;> subst hd
        · have hred : removeTrailingCommas (',' :: '"' :: r2) =
              ',' :: removeTrailingCommas ('"' :: r2) := rfl
          rw [hred, ih hrest]
        · have hred : removeTrailingCommas (',' :: '\x7b' :: r2) =
              ',' :: removeTrailingCommas ('\x7b' :: r2) := rfl
          rw [hred, ih hrest]
    · rw [if_neg hc] at h
      unfold removeTrailingCommas
      rw [if_neg hc, ih h.2]

theorem sanitizeJson_of_inert_good (s : List Char)
    (h1 : s.all sanitizeInert = true) (h2 : goodCommas s = true) :
    sanitizeJson s = s := by
  unfold sanitizeJson
  rw [pyStrip_of_inert s h1, ctrlToSpace_of_inert s h1]
  unfold collapseWs
  rw [collapseWsGo_of_inert false s h1, removeTrailingCommas_of_good s h2]

theorem mem_sepByComma {c : Char} {xs : List (List Char)}
    (h : c ∈ sepByComma xs) : c = ',' ∨ ∃ x ∈ xs, c ∈ x := by
  induction xs with
  | nil => simp [sepByComma] at h
  | cons x rest ih =>
    cases rest with
    | nil =>
      rw [show sepByComma [x] = x from rfl] at h
      exact Or.inr ⟨x, by simp, h⟩
    | cons y r2 =>
      rw [show sepByComma (x :: y :: r2) = x ++ ',' :: sepByComma (y :: r2) from rfl] at h
      rcases List.mem_append.mp h with h | h
      · exact Or.inr ⟨x, by simp, h⟩
      · rcases List.mem_cons.mp h with h | h
        · exact Or.inl h
        · rcases ih h with h | ⟨x2, hx2, hc⟩
          · exact Or.inl h
          · exact Or.inr ⟨x2, List.mem_cons_of_mem x hx2, hc⟩

theorem mem_renderField {c : Char} {p : List Char × List Char}
    (h : c ∈ renderField p) : c = '"' ∨ c = ':' ∨ c ∈ p.1 ∨ c ∈ p.2 := by
  simp only [renderField, renderJsonStr, List.mem_append, List.mem_cons,
    List.mem_singleton] at h
  tauto

theorem mem_renderStrObj {c : Char} {fs : List (List Char × List Char)}
    (h : c ∈ renderStrObj fs) :
    c = '\x7b' ∨ c = '\x7d' ∨ c = '"' ∨ c = ':' ∨ c = ',' ∨
      ∃ p ∈ fs, c ∈ p.1 ∨ c ∈ p.2 := by
  simp only [renderStrObj, List.mem_cons, List.mem_append, List.mem_singleton] at h
  rcases h with (h | h) | h
  · exact Or.inl h
  · rcases mem_sepByComma h with h | ⟨x, hx, hc⟩
    · tauto
    · rcases List.mem_map.mp hx with ⟨p, hp, rfl⟩
      rcases mem_renderField hc with h | h | h | h
      · tauto
      · tauto
      · exact Or.inr (Or.inr (Or.inr (Or.inr (Or.inr ⟨p, hp, Or.inl h⟩))))
      · exact Or.inr (Or.inr (Or.inr (Or.inr (Or.inr ⟨p, hp, Or.inr h⟩))))
  · tauto

theorem mem_renderStrObjArr {c : Char}
    {objs : List (List (List Char × List Char))}
    (h : c ∈ renderStrObjArr objs) :
    c = '[' ∨ c = ']' ∨ c = ',' ∨ c = '\x7b' ∨ c = '\x7d' ∨ c = '"' ∨ c = ':' ∨
      ∃ o ∈ objs, ∃ p ∈ o, c ∈ p.1 ∨ c ∈ p.2 := by
  simp only [renderStrObjArr, List.mem_cons, List.mem_append,
    List.mem_singleton] at h
  rcases h with (h | h) | h
  · exact Or.inl h
  · rcases mem_sepByComma h with h | ⟨x, hx, hc⟩
    · tauto
    · rcases List.mem_map.mp hx with ⟨o, ho, rfl⟩
      rcases mem_renderStrObj hc with h | h | h | h | h | ⟨p, hp, hc2⟩ <;>
        try tauto
      exact Or.inr (Or.inr (Or.inr (Or.inr (Or.inr (Or.inr (Or.inr
        ⟨o, ho, p, hp, hc2⟩))))))
  · tauto

theorem clean_of_mem {c : Char} {objs : List (List (List Char × List Char))}
    (h : cleanObjs objs = true) {o : List (List Char × List Char)}
    (ho : o ∈ objs) {p : List Char × List Char} (hp : p ∈ o)
    (hc : c ∈ p.1 ∨ c ∈ p.2) : cleanChar c = true := by
  rw [cleanObjs, List.all_eq_true] at h
  have h2 := h o ho
  rw [cleanObj, List.all_eq_true] at h2
  have h3 := h2 p hp
  rw [cleanField, Bool.and_eq_true, cleanStr, cleanStr,
    List.all_eq_true, List.all_eq_true] at h3
  rcases hc with hc | hc
  · exact h3.1 c hc
  · exact h3.2 c hc

theorem inert_renderStrObjArr {objs : List (List (List Char × List Char))}
    (h : cleanObjs objs = true) :
    ∀ c ∈ renderStrObjArr objs, sanitizeInert c = true := by
  intro c hc
  rcases mem_renderStrObjArr hc with h1 | h1 | h1 | h1 | h1 | h1 | h1 |
      ⟨o, ho, p, hp, h1⟩
  all_goals first
    | (subst h1; decide)
    | exact cleanChar_inert c (clean_of_mem h ho hp h1)

theorem noTick_renderStrObjArr {objs : List (List (List Char × List Char))}
    (h : cleanObjs objs = true) :
    ∀ c ∈ renderStrObjArr objs, c ≠ '\x60' := by
  intro c hc
  rcases mem_renderStrObjArr hc with h1 | h1 | h1 | h1 | h1 | h1 | h1 |
      ⟨o, ho, p, hp, h1⟩
  all_goals first
    | (subst h1; decide)
    | exact (cleanChar_ne c (clean_of_mem h ho hp h1)).2.2.2.2.2.1

theorem nocomma_renderField {p : List Char × List Char}
    (hk : cleanStr p.1 = true) (hv : cleanStr p.2 = true) :
    ∀ c ∈ renderField p, c ≠ ',' := by
  intro c hc
  rcases mem_renderField hc with h1 | h1 | h1 | h1
  · subst h1; decide
  · subst h1; decide
  · rw [cleanStr, List.all_eq_true] at hk
    exact (cleanChar_ne c (hk c h1)).2.2.2.2.1
  · rw [cleanStr, List.all_eq_true] at hv
    exact (cleanChar_ne c (hv c h1)).2.2.2.2.1

theorem gc_fields (fs : List (List Char × List Char)) (h : cleanObj fs = true)
    (r : List Char) (hr : goodCommas r = true) :
    goodCommas (sepByComma (fs.map renderField) ++ r) = true := by
  induction fs with
  | nil => simpa [sepByComma] using hr
  | cons f rest ih =>
    rw [cleanObj, List.all_cons, Bool.and_eq_true] at h
    have hf := h.1
    rw [cleanField, Bool.and_eq_true] at hf
    have hnc : (renderField f).all (fun c => !(c == ',')) = true := by
      rw [List.all_eq_true]
      intro c hc
      simpa using nocomma_renderField hf.1 hf.2 c hc
    cases rest with
    | nil =>
      rw [show ([f].map renderField) = [renderField f] from rfl,
        show sepByComma [renderField f] = renderField f from rfl]
      rw [gc_append_nocomma _ _ hnc]
      exact hr
    | cons f2 r2 =>
      rw [show ((f :: f2 :: r2).map renderField) =
        renderField f :: (f2 :: r2).map renderField from rfl]
      rw [show sepByComma (renderField f :: (f2 :: r2).map renderField) =
        renderField f ++ ',' :: sepByComma ((f2 :: r2).map renderField) from rfl]
      rw [List.append_assoc, gc_append_nocomma _ _ hnc]
      rw [List.cons_append, goodCommas_cons]
      have hfield2 : renderField f2 = '"' :: (f2.1 ++ '"' :: ':' :: renderJsonStr f2.2) := by
        simp [renderField, renderJsonStr]
      have hhead : (sepByComma ((f2 :: r2).map renderField) ++ r).head? = some '"' := by
        rw [show ((f2 :: r2).map renderField) =
          renderField f2 :: (r2.map renderField) from rfl]
        cases r2 with
        | nil =>
          simp only [List.map_nil]
          rw [show sepByComma [renderField f2] = renderField f2 from rfl, hfield2]
          rfl
        | cons f3 r3 =>
          rw [show sepByComma (renderField f2 :: (f3 :: r3).map renderField) =
            renderField f2 ++ ',' :: sepByComma ((f3 :: r3).map renderField) from rfl,
            hfield2]
          rfl
      rw [if_pos rfl, hhead]
      rw [Bool.and_eq_true]
      refine ⟨by rfl, ?_⟩
      exact ih h.2

theorem gc_strObj (fs : List (List Char × List Char)) (h : cleanObj fs = true)
    (r : List Char) (hr : goodCommas r = true) :
    goodCommas (renderStrObj fs ++ r) = true := by
  rw [show renderStrObj fs ++ r =
    '\x7b' :: (sepByComma (fs.map renderField) ++ ('\x7d' :: r)) from by
      simp [renderStrObj]]
  rw [goodCommas_cons, if_neg (by decide), Bool.true_and]
  refine gc_fields fs h _ ?_
  rw [goodCommas_cons, if_neg (by decide), Bool.true_and]
  exact hr

theorem head_renderStrObj (fs : List (List Char × List Char)) (r : List Char) :
    (renderStrObj fs ++ r).head? = some '\x7b' := by
  rw [show renderStrObj fs ++ r =
    '\x7b' :: (sepByComma (fs.map renderField) ++ ('\x7d' :: r)) from by
      simp [renderStrObj]]
  rfl

theorem head_sepObjs (o2 : List (List Char × List Char))
    (L : List (List Char)) (r : List Char) :
    (sepByComma (renderStrObj o2 :: L) ++ r).head? = some '\x7b' := by
  cases L with
  | nil =>
    rw [show sepByComma [renderStrObj o2] = renderStrObj o2 from rfl]
    exact head_renderStrObj o2 r
  | cons x L2 =>
    rw [show sepByComma (renderStrObj o2 :: x :: L2) =
      renderStrObj o2 ++ ',' :: sepByComma (x :: L2) from rfl, List.append_assoc]
    exact head_renderStrObj o2 _

theorem gc_objsSep (objs : List (List (List Char × List Char)))
    (h : cleanObjs objs = true) (r : List Char) (hr : goodCommas r = true) :
    goodCommas (sepByComma (objs.map renderStrObj) ++ r) = true := by
  induction objs with
  | nil => simpa [sepByComma] using hr
  | cons o rest ih =>
    rw [cleanObjs, List.all_cons, Bool.and_eq_true] at h
    cases rest with
    | nil =>
      simp only [List.map_cons, List.map_nil]
      rw [show sepByComma [renderStrObj o] = renderStrObj o from rfl]
      exact gc_strObj o h.1 r hr
    | cons o2 r2 =>
      simp only [List.map_cons]
      rw [show sepByComma (renderStrObj o :: renderStrObj o2 :: (r2.map renderStrObj)) =
        renderStrObj o ++ ',' :: sepByComma (renderStrObj o2 :: (r2.map renderStrObj))
        from rfl]
      rw [List.append_assoc]
      refine gc_strObj o h.1 _ ?_
      rw [List.cons_append, goodCommas_cons, if_pos rfl, head_sepObjs]
      rw [Bool.and_eq_true]
      refine ⟨by rfl, ?_⟩
      have := ih h.2
      simpa only [List.map_cons] using this

theorem gc_renderStrObjArr (objs : List (List (List Char × List Char)))
    (h : cleanObjs objs = true) :
    goodCommas (renderStrObjArr objs) = true := by
  rw [show renderStrObjArr objs =
    '[' :: (sepByComma (objs.map renderStrObj) ++ [']']) from by
      simp [renderStrObjArr]]
  rw [goodCommas_cons, if_neg (by decide), Bool.true_and]
  exact gc_objsSep objs h [']'] (by decide)

theorem gc_truncText (objs : List (List (List Char × List Char)))
    (h : cleanObjs objs = true) :
    goodCommas ('[' :: sepByComma (objs.map renderStrObj) ++ ',' :: truncTail)
      = true := by
  rw [List.cons_append, goodCommas_cons, if_neg (by decide), Bool.true_and]
  refine gc_objsSep objs h (',' :: truncTail) ?_
  decide

theorem scanStep_neutral (st : ScanSt) (c : Char) (hesc : st.escapeNext = false)
    (h1 : c ≠ '\\') (h2 : c ≠ '"') (h3 : c ≠ '[') (h4 : c ≠ ']') :
    scanStep st c = (st, false) := by
  unfold scanStep
  rw [hesc]
  simp only [Bool.false_eq_true, if_false]
  rw [if_neg h1, if_neg h2]
  by_cases hin : st.inString = true
  · rw [if_neg (by simp [hin])]
  · rw [if_pos (by simp [Bool.not_eq_true] at hin ⊢; exact hin), if_neg h3, if_neg h4]

theorem scanStep_clean (st : ScanSt) (c : Char) (hesc : st.escapeNext = false)
    (hc : cleanChar c = true) : scanStep st c = (st, false) := by
  have h := cleanChar_ne c hc
  exact scanStep_neutral st c hesc h.2.1 h.1 h.2.2.1 h.2.2.2.1

theorem zp_clean_chunk (s : List Char) (hs : ∀ c ∈ s, cleanChar c = true)
    (st : ScanSt) (hesc : st.escapeNext = false) (i : ℕ) (rest : List Char) :
    zeroPointsGo st i (s ++ rest) = zeroPointsGo st (i + s.length) rest := by
  induction s generalizing i with
  | nil => simp
  | cons c cs ih =>
    simp only [List.cons_append]
    rw [show zeroPointsGo st i (c :: (cs ++ rest)) =
      (if (scanStep st c).2 then
        (i + 1) :: zeroPointsGo (scanStep st c).1 (i + 1) (cs ++ rest)
      else zeroPointsGo (scanStep st c).1 (i + 1) (cs ++ rest)) from rfl]
    rw [scanStep_clean st c hesc (hs c (by simp))]
    simp only [Bool.false_eq_true, if_false]
    rw [show i + (c :: cs).length = i + 1 + cs.length from by
      simp only [List.length_cons]; omega]
    rw [ih (fun c2 h2 => hs c2 (by simp [h2])) (i + 1)]

theorem zp_quote (bc : ℤ) (b : Bool) (i : ℕ) (rest : List Char) :
    zeroPointsGo ⟨bc, b, false⟩ i ('"' :: rest) =
      zeroPointsGo ⟨bc, !b, false⟩ (i + 1) rest := rfl

theorem zp_string (s : List Char) (hs : cleanStr s = true) (bc : ℤ) (i : ℕ)
    (rest : List Char) :
    zeroPointsGo ⟨bc, false, false⟩ i (renderJsonStr s ++ rest) =
      zeroPointsGo ⟨bc, false, false⟩ (i + (s.length + 2)) rest := by
  rw [show renderJsonStr s ++ rest = '"' :: (s ++ ('"' :: rest)) from by
    simp [renderJsonStr]]
  rw [zp_quote]
  rw [cleanStr, List.all_eq_true] at hs
  rw [zp_clean_chunk s (by simpa using hs) _ rfl]
  rw [show i + (s.length + 2) = i + 1 + s.length + 1 from by omega]
  rfl

theorem zp_struct (c : Char) (h1 : c ≠ '\\') (h2 : c ≠ '"') (h3 : c ≠ '[')
    (h4 : c ≠ ']') (st : ScanSt) (hesc : st.escapeNext = false) (i : ℕ)
    (rest : List Char) :
    zeroPointsGo st i (c :: rest) = zeroPointsGo st (i + 1) rest := by
  rw [show zeroPointsGo st i (c :: rest) =
    (if (scanStep st c).2 then
      (i + 1) :: zeroPointsGo (scanStep st c).1 (i + 1) rest
    else zeroPointsGo (scanStep st c).1 (i + 1) rest) from rfl]
  rw [scanStep_neutral st c hesc h1 h2 h3 h4]
  rfl

theorem zp_field (p : List Char × List Char) (hp : cleanField p = true)
    (bc : ℤ) (i : ℕ) (rest : List Char) :
    zeroPointsGo ⟨bc, false, false⟩ i (renderField p ++ rest) =
      zeroPointsGo ⟨bc, false, false⟩ (i + (renderField p).length) rest := by
  rw [cleanField, Bool.and_eq_true] at hp
  rw [show renderField p ++ rest =
    renderJsonStr p.1 ++ (':' :: (renderJsonStr p.2 ++ rest)) from by
      simp [renderField]]
  rw [zp_string p.1 hp.1, zp_struct ':' (by decide) (by decide) (by decide)
    (by decide) _ rfl, zp_string p.2 hp.2]
  have hlen : (renderField p).length = p.1.length + p.2.length + 5 := by
    simp only [renderField, renderJsonStr, List.length_append, List.length_cons,
      List.length_nil]
    omega
  rw [hlen, show i + (p.1.length + p.2.length + 5) =
    i + (p.1.length + 2) + 1 + (p.2.length + 2) from by omega]

theorem scanValue_str (F : ℕ) (l : List Char) :
    scanJsonValue (F + 1) ('"' :: l) =
      (scanJsonString l []).map fun p => (.str p.1, p.2) := rfl

theorem scanValue_obj (F : ℕ) (l : List Char) :
    scanJsonValue (F + 1) ('\x7b' :: l) = parseJsonObj F l := rfl

theorem scanValue_arr (F : ℕ) (l : List Char) :
    scanJsonValue (F + 1) ('[' :: l) = parseJsonArr F l := rfl

theorem parseObj_step_str (F : ℕ) (t : List Char) :
    parseJsonObj (F + 1) ('"' :: t) = parseJsonObjPairs F t [] := rfl

theorem parseObj_step_empty (F : ℕ) (t : List Char) :
    parseJsonObj (F + 1) ('\x7d' :: t) = .ok (.obj [], t) := rfl

theorem parseArr_step_obj (F : ℕ) (t : List Char) :
    parseJsonArr (F + 1) ('\x7b' :: t) = parseJsonArrElems F ('\x7b' :: t) [] := rfl

theorem arrElems_step_ok_close (F : ℕ) (s tail : List Char) (v : JsonVal)
    (acc : List JsonVal) (h : scanJsonValue F s = .ok (v, ']' :: tail)) :
    parseJsonArrElems (F + 1) s acc = .ok (.arr (acc ++ [v]), tail) := by
  unfold parseJsonArrElems
  rw [h]
  rfl

theorem arrElems_step_ok_comma (F : ℕ) (s tail : List Char) (v : JsonVal)
    (acc : List JsonVal) (h : scanJsonValue F s = .ok (v, ',' :: tail)) :
    parseJsonArrElems (F + 1) s acc =
      parseJsonArrElems F (skipJsonWs tail) (acc ++ [v]) := by
  conv_lhs => unfold parseJsonArrElems
  rw [h]
  rfl

theorem arrElems_step_err (F : ℕ) (s : List Char) (e : PyJsonErr)
    (acc : List JsonVal) (h : scanJsonValue F s = .error e) :
    parseJsonArrElems (F + 1) s acc = .error e := by
  unfold parseJsonArrElems
  rw [h]

theorem objPairs_after_colon (F : ℕ) (s r key : List Char)
    (acc : List (List Char × JsonVal))
    (h1 : scanJsonString s [] = .ok (key, ':' :: r)) :
    parseJsonObjPairs (F + 1) s acc =
      (match scanJsonValue F (skipJsonWs r) with
      | .error e => .error e
      | .ok (v, r3) =>
        match skipJsonWs r3 with
        | '\x7d' :: r4 => .ok (.obj (acc ++ [(key, v)]), r4)
        | ',' :: r4 =>
          match skipJsonWs r4 with
          | '"' :: r5 => parseJsonObjPairs F r5 (acc ++ [(key, v)])
          | _ => .error .expectingPropertyName
        | _ => .error .expectingCommaDelimiter) := by
  conv_lhs => unfold parseJsonObjPairs
  rw [h1]
  rfl

theorem objPairs_step_close (F : ℕ) (s r tail key : List Char) (v : JsonVal)
    (acc : List (List Char × JsonVal))
    (h1 : scanJsonString s [] = .ok (key, ':' :: r))
    (h2 : scanJsonValue F (skipJsonWs r) = .ok (v, '\x7d' :: tail)) :
    parseJsonObjPairs (F + 1) s acc = .ok (.obj (acc ++ [(key, v)]), tail) := by
  rw [objPairs_after_colon F s r key acc h1, h2]
  rfl

theorem objPairs_step_comma (F : ℕ) (s r tail key : List Char) (v : JsonVal)
    (acc : List (List Char × JsonVal))
    (h1 : scanJsonString s [] = .ok (key, ':' :: r))
    (h2 : scanJsonValue F (skipJsonWs r) = .ok (v, ',' :: '"' :: tail)) :
    parseJsonObjPairs (F + 1) s acc =
      parseJsonObjPairs F tail (acc ++ [(key, v)]) := by
  rw [objPairs_after_colon F s r key acc h1, h2]
  rfl

theorem objPairs_step_eof (F : ℕ) (s r key : List Char) (v : JsonVal)
    (acc : List (List Char × JsonVal))
    (h1 : scanJsonString s [] = .ok (key, ':' :: r))
    (h2 : scanJsonValue F (skipJsonWs r) = .ok (v, [])) :
    parseJsonObjPairs (F + 1) s acc = .error .expectingCommaDelimiter := by
  rw [objPairs_after_colon F s r key acc h1, h2]
  rfl

theorem RT_string (s : List Char) (hs : cleanStr s = true) (acc rest : List Char) :
    scanJsonString (s ++ '"' :: rest) acc = .ok (acc ++ s, rest) := by
  induction s generalizing acc with
  | nil =>
    simp only [List.nil_append, List.append_nil]
    unfold scanJsonString
    rfl
  | cons c cs ih =>
    rw [cleanStr, List.all_cons, Bool.and_eq_true] at hs
    have hne := cleanChar_ne c hs.1
    have hfacts := cleanChar_facts c hs.1
    rw [List.cons_append]
    conv_lhs => unfold scanJsonString
    rw [if_neg hne.1, if_neg hne.2.1, if_neg (by omega : ¬c.toNat < 32)]
    rw [ih hs.2 (acc ++ [c])]
    simp

theorem RT_str_value (F : ℕ) (s : List Char) (hs : cleanStr s = true)
    (rest : List Char) :
    scanJsonValue (F + 1) (renderJsonStr s ++ rest) = .ok (.str s, rest) := by
  rw [show renderJsonStr s ++ rest = '"' :: (s ++ '"' :: rest) from by
    simp [renderJsonStr]]
  rw [scanValue_str, RT_string s hs [] rest]
  rfl

theorem sep_fields_eq (fs : List (List Char × List Char)) (rest : List Char)
    (h : fs ≠ []) :
    sepByComma (fs.map renderField) ++ '\x7d' :: rest =
      '"' :: (pairsText fs ++ rest) := by
  induction fs with
  | nil => exact absurd rfl h
  | cons p tl ih =>
    cases tl with
    | nil => simp [sepByComma, pairsText, renderField, renderJsonStr]
    | cons q r =>
      rw [List.map_cons, List.map_cons,
        show sepByComma (renderField p :: renderField q :: (r.map renderField)) =
          renderField p ++ ',' :: sepByComma (renderField q :: (r.map renderField))
          from rfl]
      have ih2 := ih (by simp)
      rw [List.map_cons] at ih2
      rw [List.append_assoc, List.cons_append, ih2]
      simp [renderField, renderJsonStr, pairsText]

theorem RT_pairs (fs : List (List Char × List Char)) (h : cleanObj fs = true)
    (hne : fs ≠ []) (g : ℕ) (acc : List (List Char × JsonVal))
    (rest : List Char) :
    parseJsonObjPairs (fs.length + g + 1) (pairsText fs ++ rest) acc =
      .ok (.obj (acc ++ fs.map fun p => (p.1, .str p.2)), rest) := by
  induction fs generalizing g acc with
  | nil => exact absurd rfl hne
  | cons p tl ih =>
    rw [cleanObj, List.all_cons, Bool.and_eq_true] at h
    have hkv := h.1
    rw [cleanField, Bool.and_eq_true] at hkv
    cases tl with
    | nil =>
      rw [show pairsText [p] ++ rest =
        p.1 ++ '"' :: ':' :: '"' :: (p.2 ++ '"' :: '\x7d' :: rest) from by
          simp [pairsText, renderJsonStr]]
      rw [show ([p] : List (List Char × List Char)).length + g + 1 = (g + 1) + 1
        from by simp only [List.length_cons, List.length_nil]; omega]
      have h1 : scanJsonString (p.1 ++ '"' :: ':' :: '"' ::
          (p.2 ++ '"' :: '\x7d' :: rest)) [] =
          .ok (p.1, ':' :: '"' :: (p.2 ++ '"' :: '\x7d' :: rest)) := by
        simpa using RT_string p.1 hkv.1 [] _
      have h2 : scanJsonValue (g + 1)
          (skipJsonWs ('"' :: (p.2 ++ '"' :: '\x7d' :: rest))) =
          .ok (.str p.2, '\x7d' :: rest) := by
        rw [show skipJsonWs ('"' :: (p.2 ++ '"' :: '\x7d' :: rest)) =
          '"' :: (p.2 ++ '"' :: '\x7d' :: rest) from rfl]
        rw [scanValue_str, RT_string p.2 hkv.2 []]
        rfl
      rw [objPairs_step_close (g + 1) _ _ _ p.1 (.str p.2) acc h1 h2]
      simp
    | cons q r =>
      rw [show pairsText (p :: q :: r) ++ rest =
        p.1 ++ '"' :: ':' :: '"' ::
          (p.2 ++ '"' :: ',' :: '"' :: (pairsText (q :: r) ++ rest)) from by
          simp [pairsText, renderJsonStr]]
      rw [show (p :: q :: r).length + g + 1 = ((q :: r).length + g + 1) + 1
        from by simp only [List.length_cons]; omega]
      have h1 : scanJsonString (p.1 ++ '"' :: ':' :: '"' ::
          (p.2 ++ '"' :: ',' :: '"' :: (pairsText (q :: r) ++ rest))) [] =
          .ok (p.1, ':' :: '"' ::
            (p.2 ++ '"' :: ',' :: '"' :: (pairsText (q :: r) ++ rest))) := by
        simpa using RT_string p.1 hkv.1 [] _
      have h2 : scanJsonValue ((q :: r).length + g + 1)
          (skipJsonWs ('"' ::
            (p.2 ++ '"' :: ',' :: '"' :: (pairsText (q :: r) ++ rest)))) =
          .ok (.str p.2, ',' :: '"' :: (pairsText (q :: r) ++ rest)) := by
        rw [show skipJsonWs ('"' ::
          (p.2 ++ '"' :: ',' :: '"' :: (pairsText (q :: r) ++ rest))) =
          '"' :: (p.2 ++ '"' :: ',' :: '"' :: (pairsText (q :: r) ++ rest))
          from rfl]
        rw [scanValue_str, RT_string p.2 hkv.2 []]
        rfl
      rw [objPairs_step_comma ((q :: r).length + g + 1) _ _ _ p.1 (.str p.2)
        acc h1 h2]
      rw [ih h.2 (by simp) g (acc ++ [(p.1, JsonVal.str p.2)])]
      simp

theorem RT_obj (fs : List (List Char × List Char)) (h : cleanObj fs = true)
    (g : ℕ) (rest : List Char) :
    parseJsonObj (fs.length + g + 2)
      (sepByComma (fs.map renderField) ++ '\x7d' :: rest) =
      .ok (strObjVal fs, rest) := by
  cases fs with
  | nil =>
    rw [show sepByComma (([] : List (List Char × List Char)).map renderField) ++
      '\x7d' :: rest = '\x7d' :: rest from rfl]
    rw [show ([] : List (List Char × List Char)).length + g + 2 = (g + 1) + 1
      from by simp only [List.length_nil]; omega]
    rw [parseObj_step_empty]
    rfl
  | cons p tl =>
    rw [sep_fields_eq (p :: tl) rest (by simp)]
    rw [show (p :: tl).length + g + 2 = ((p :: tl).length + g + 1) + 1 from rfl]
    rw [parseObj_step_str]
    rw [RT_pairs (p :: tl) h (by simp) g []]
    simp [strObjVal]

theorem RT_obj_value (fs : List (List Char × List Char))
    (h : cleanObj fs = true) (g : ℕ) (rest : List Char) :
    scanJsonValue (fs.length + g + 3) (renderStrObj fs ++ rest) =
      .ok (strObjVal fs, rest) := by
  rw [show renderStrObj fs ++ rest =
    '\x7b' :: (sepByComma (fs.map renderField) ++ '\x7d' :: rest) from by
      simp [renderStrObj]]
  rw [show fs.length + g + 3 = (fs.length + g + 2) + 1 from rfl]
  rw [scanValue_obj]
  exact RT_obj fs h g rest

theorem sep_objs_cons (objs : List (List (List Char × List Char)))
    (r : List Char) (h : objs ≠ []) :
    ∃ T, sepByComma (objs.map renderStrObj) ++ r = '\x7b' :: T := by
  cases objs with
  | nil => exact absurd rfl h
  | cons o tl =>
    cases tl with
    | nil =>
      refine ⟨sepByComma (o.map renderField) ++ '\x7d' :: r, ?_⟩
      rw [List.map_cons, List.map_nil,
        show sepByComma [renderStrObj o] = renderStrObj o from rfl]
      simp [renderStrObj]
    | cons o2 r2 =>
      refine ⟨sepByComma (o.map renderField) ++ '\x7d' :: ',' ::
        (sepByComma ((o2 :: r2).map renderStrObj) ++ r), ?_⟩
      rw [List.map_cons, List.map_cons,
        show sepByComma (renderStrObj o :: renderStrObj o2 :: (r2.map renderStrObj)) =
          renderStrObj o ++ ',' :: sepByComma (renderStrObj o2 :: (r2.map renderStrObj))
          from rfl]
      simp [renderStrObj]

theorem skip_sep_objs (objs : List (List (List Char × List Char)))
    (r : List Char) (h : objs ≠ []) :
    skipJsonWs (sepByComma (objs.map renderStrObj) ++ r) =
      sepByComma (objs.map renderStrObj) ++ r := by
  obtain ⟨T, hT⟩ := sep_objs_cons objs r h
  rw [hT]
  rfl

theorem RT_arrElems (objs : List (List (List Char × List Char)))
    (h : cleanObjs objs = true) (hne : objs ≠ []) (g : ℕ)
    (acc : List JsonVal) (rest : List Char) :
    parseJsonArrElems (objsFuel objs + g)
      (sepByComma (objs.map renderStrObj) ++ ']' :: rest) acc =
      .ok (.arr (acc ++ objs.map strObjVal), rest) := by
  induction objs generalizing g acc with
  | nil => exact absurd rfl hne
  | cons o tl ih =>
    rw [cleanObjs, List.all_cons, Bool.and_eq_true] at h
    cases tl with
    | nil =>
      rw [List.map_cons, List.map_nil,
        show sepByComma [renderStrObj o] = renderStrObj o from rfl]
      rw [show objsFuel [o] + g = ((o.length + g) + 3) + 1 from by
        simp only [objsFuel]; omega]
      rw [arrElems_step_ok_close _ _ _ _ acc
        (RT_obj_value o h.1 g (']' :: rest))]
      simp
    | cons o2 r2 =>
      rw [List.map_cons, List.map_cons,
        show sepByComma (renderStrObj o :: renderStrObj o2 :: (r2.map renderStrObj)) =
          renderStrObj o ++ ',' :: sepByComma (renderStrObj o2 :: (r2.map renderStrObj))
          from rfl]
      rw [List.append_assoc, List.cons_append]
      rw [show objsFuel (o :: o2 :: r2) + g =
        ((o.length + (objsFuel (o2 :: r2) + g) + 3)) + 1 from by
          simp only [objsFuel]; omega]
      rw [arrElems_step_ok_comma _ _ _ _ acc
        (RT_obj_value o h.1 (objsFuel (o2 :: r2) + g)
          (',' :: (sepByComma (renderStrObj o2 :: (r2.map renderStrObj)) ++
            ']' :: rest)))]
      have hskip := skip_sep_objs (o2 :: r2) (']' :: rest) (by simp)
      rw [List.map_cons] at hskip
      rw [hskip]
      rw [show o.length + (objsFuel (o2 :: r2) + g) + 3 =
        objsFuel (o2 :: r2) + (o.length + g + 3) from by omega]
      have ih2 := ih h.2 (by simp) (o.length + g + 3) (acc ++ [strObjVal o])
      rw [List.map_cons] at ih2
      rw [ih2]
      simp

theorem renderField_length (p : List Char × List Char) :
    (renderField p).length = p.1.length + p.2.length + 5 := by
  simp only [renderField, renderJsonStr, List.length_append, List.length_cons,
    List.length_nil]
  omega

theorem length_sep_fields (fs : List (List Char × List Char)) :
    fs.length ≤ (sepByComma (fs.map renderField)).length := by
  induction fs with
  | nil => simp
  | cons p tl ih =>
    cases tl with
    | nil =>
      rw [List.map_cons, List.map_nil,
        show sepByComma [renderField p] = renderField p from rfl,
        renderField_length]
      simp only [List.length_cons, List.length_nil]
      omega
    | cons q r =>
      rw [List.map_cons, List.map_cons,
        show sepByComma (renderField p :: renderField q :: (r.map renderField)) =
          renderField p ++ ',' :: sepByComma (renderField q :: (r.map renderField))
          from rfl]
      rw [List.map_cons] at ih
      simp only [List.length_cons, List.length_append, renderField_length]
      simp only [List.length_cons] at ih
      omega

theorem renderStrObj_fuel (o : List (List Char × List Char)) :
    o.length + 4 ≤ 3 * (renderStrObj o).length := by
  have := length_sep_fields o
  simp only [renderStrObj, List.length_cons, List.length_append,
    List.length_nil]
  omega

theorem objsFuel_le (objs : List (List (List Char × List Char))) :
    objsFuel objs ≤ 3 * (sepByComma (objs.map renderStrObj)).length + 1 := by
  induction objs with
  | nil => simp [objsFuel]
  | cons o tl ih =>
    cases tl with
    | nil =>
      rw [List.map_cons, List.map_nil,
        show sepByComma [renderStrObj o] = renderStrObj o from rfl]
      have := renderStrObj_fuel o
      simp only [objsFuel]
      omega
    | cons o2 r2 =>
      rw [List.map_cons, List.map_cons,
        show sepByComma (renderStrObj o :: renderStrObj o2 :: (r2.map renderStrObj)) =
          renderStrObj o ++ ',' :: sepByComma (renderStrObj o2 :: (r2.map renderStrObj))
          from rfl]
      rw [List.map_cons] at ih
      have := renderStrObj_fuel o
      simp only [objsFuel, List.length_append, List.length_cons]
      simp only [objsFuel] at ih
      omega

theorem RT_loads (objs : List (List (List Char × List Char)))
    (h : cleanObjs objs = true) (hne : objs ≠ []) :
    json_loads (renderStrObjArr objs) = .ok (.arr (objs.map strObjVal)) := by
  have harr : renderStrObjArr objs =
      '[' :: (sepByComma (objs.map renderStrObj) ++ ']' :: []) := by
    simp [renderStrObjArr]
  have hlen : 3 * (renderStrObjArr objs).length + 1 =
      objsFuel objs + (3 * (renderStrObjArr objs).length + 1 - objsFuel objs) := by
    have h1 := objsFuel_le objs
    rw [harr]
    simp only [List.length_cons, List.length_append, List.length_nil]
    omega
  unfold json_loads
  rw [harr]
  rw [show skipJsonWs ('[' :: (sepByComma (objs.map renderStrObj) ++ ']' :: [])) =
    '[' :: (sepByComma (objs.map renderStrObj) ++ ']' :: []) from rfl]
  rw [show 3 * ('[' :: (sepByComma (objs.map renderStrObj) ++ ']' :: [])).length + 3 =
    (3 * ('[' :: (sepByComma (objs.map renderStrObj) ++ ']' :: [])).length + 2) + 1
    from rfl]
  rw [scanValue_arr]
  obtain ⟨T, hT⟩ := sep_objs_cons objs (']' :: []) hne
  rw [show 3 * ('[' :: (sepByComma (objs.map renderStrObj) ++ ']' :: [])).length + 2 =
    (3 * ('[' :: (sepByComma (objs.map renderStrObj) ++ ']' :: [])).length + 1) + 1
    from rfl]
  rw [hT, parseArr_step_obj, ← hT]
  rw [show 3 * ('[' :: (sepByComma (objs.map renderStrObj) ++ ']' :: [])).length + 1 =
    3 * (renderStrObjArr objs).length + 1 from by rw [harr]]
  rw [hlen]
  rw [RT_arrElems objs h hne _ [] []]
  rfl

theorem truncVal_err (k : ℕ) :
    scanJsonValue (k + 7) truncTail = .error .expectingCommaDelimiter := rfl

theorem RT_arrElems_err (objs : List (List (List Char × List Char)))
    (h : cleanObjs objs = true) (hne : objs ≠ []) (g : ℕ)
    (acc : List JsonVal) :
    parseJsonArrElems (objsFuel objs + (g + 8))
      (sepByComma (objs.map renderStrObj) ++ ',' :: truncTail) acc =
      .error .expectingCommaDelimiter := by
  induction objs generalizing g acc with
  | nil => exact absurd rfl hne
  | cons o tl ih =>
    rw [cleanObjs, List.all_cons, Bool.and_eq_true] at h
    cases tl with
    | nil =>
      rw [List.map_cons, List.map_nil,
        show sepByComma [renderStrObj o] = renderStrObj o from rfl]
      rw [show objsFuel [o] + (g + 8) = ((o.length + (g + 8) + 3)) + 1 from by
        simp only [objsFuel]; omega]
      rw [arrElems_step_ok_comma _ _ _ _ acc
        (RT_obj_value o h.1 (g + 8) (',' :: truncTail))]
      rw [show skipJsonWs truncTail = truncTail from rfl]
      rw [show o.length + (g + 8) + 3 = ((o.length + g + 3) + 7) + 1 from by omega]
      exact arrElems_step_err _ _ _ _ (truncVal_err (o.length + g + 3))
    | cons o2 r2 =>
      rw [List.map_cons, List.map_cons,
        show sepByComma (renderStrObj o :: renderStrObj o2 :: (r2.map renderStrObj)) =
          renderStrObj o ++ ',' :: sepByComma (renderStrObj o2 :: (r2.map renderStrObj))
          from rfl]
      rw [List.append_assoc, List.cons_append]
      rw [show objsFuel (o :: o2 :: r2) + (g + 8) =
        ((o.length + (objsFuel (o2 :: r2) + g + 8) + 3)) + 1 from by
          simp only [objsFuel]; omega]
      rw [arrElems_step_ok_comma _ _ _ _ acc
        (RT_obj_value o h.1 (objsFuel (o2 :: r2) + g + 8)
          (',' :: (sepByComma (renderStrObj o2 :: (r2.map renderStrObj)) ++
            ',' :: truncTail)))]
      have hskip := skip_sep_objs (o2 :: r2) (',' :: truncTail) (by simp)
      rw [List.map_cons] at hskip
      rw [hskip]
      rw [show o.length + (objsFuel (o2 :: r2) + g + 8) + 3 =
        objsFuel (o2 :: r2) + ((o.length + g + 3) + 8) from by omega]
      have ih2 := ih h.2 (by simp) (o.length + g + 3) (acc ++ [strObjVal o])
      rw [List.map_cons] at ih2
      exact ih2

theorem json_loads_truncText (objs : List (List (List Char × List Char)))
    (h : cleanObjs objs = true) (hne : objs ≠ []) :
    json_loads ('[' :: sepByComma (objs.map renderStrObj) ++ ',' :: truncTail) =
      .error .expectingCommaDelimiter := by
  have hlen : ∀ L : ℕ, objsFuel objs + 8 ≤ 3 * L + 1 →
      3 * L + 1 = objsFuel objs + ((3 * L + 1 - objsFuel objs - 8) + 8) := by
    intro L hL
    omega
  unfold json_loads
  rw [List.cons_append]
  rw [show skipJsonWs ('[' :: (sepByComma (objs.map renderStrObj) ++
    ',' :: truncTail)) = '[' :: (sepByComma (objs.map renderStrObj) ++
    ',' :: truncTail) from rfl]
  rw [show 3 * ('[' :: (sepByComma (objs.map renderStrObj) ++
      ',' :: truncTail)).length + 3 =
    ((3 * ('[' :: (sepByComma (objs.map renderStrObj) ++
      ',' :: truncTail)).length + 1) + 1) + 1 from rfl]
  rw [scanValue_arr]
  obtain ⟨T, hT⟩ := sep_objs_cons objs (',' :: truncTail) hne
  rw [hT, parseArr_step_obj, ← hT]
  have hbound : objsFuel objs + 8 ≤
      3 * ('[' :: (sepByComma (objs.map renderStrObj) ++
        ',' :: truncTail)).length + 1 := by
    have h1 := objsFuel_le objs
    have ht : truncTail.length = 10 := rfl
    simp only [List.length_cons, List.length_append]
    omega
  rw [hlen _ hbound]
  rw [RT_arrElems_err objs h hne _ []]

theorem zp_fieldsSep (fs : List (List Char × List Char))
    (h : cleanObj fs = true) (bc : ℤ) (i : ℕ) (rest : List Char) :
    zeroPointsGo ⟨bc, false, false⟩ i
      (sepByComma (fs.map renderField) ++ rest) =
      zeroPointsGo ⟨bc, false, false⟩
        (i + (sepByComma (fs.map renderField)).length) rest := by
  induction fs generalizing i with
  | nil => simp [sepByComma]
  | cons p tl ih =>
    rw [cleanObj, List.all_cons, Bool.and_eq_true] at h
    cases tl with
    | nil =>
      rw [List.map_cons, List.map_nil,
        show sepByComma [renderField p] = renderField p from rfl]
      exact zp_field p h.1 bc i rest
    | cons q r =>
      rw [List.map_cons, List.map_cons,
        show sepByComma (renderField p :: renderField q :: (r.map renderField)) =
          renderField p ++ ',' :: sepByComma (renderField q :: (r.map renderField))
          from rfl]
      rw [List.append_assoc, List.cons_append]
      rw [zp_field p h.1, zp_struct ',' (by decide) (by decide) (by decide)
        (by decide) _ rfl]
      have ih2 := ih h.2 (i + (renderField p).length + 1)
      rw [List.map_cons] at ih2
      rw [ih2]
      rw [show i + (renderField p ++ ',' ::
          sepByComma (renderField q :: (r.map renderField))).length =
        i + (renderField p).length + 1 +
          (sepByComma (renderField q :: (r.map renderField))).length from by
        simp only [List.length_append, List.length_cons]; omega]

theorem zp_obj (fs : List (List Char × List Char)) (h : cleanObj fs = true)
    (bc : ℤ) (i : ℕ) (rest : List Char) :
    zeroPointsGo ⟨bc, false, false⟩ i (renderStrObj fs ++ rest) =
      zeroPointsGo ⟨bc, false, false⟩ (i + (renderStrObj fs).length) rest := by
  rw [show renderStrObj fs ++ rest =
    '\x7b' :: (sepByComma (fs.map renderField) ++ ('\x7d' :: rest)) from by
      simp [renderStrObj]]
  rw [zp_struct '\x7b' (by decide) (by decide) (by decide) (by decide) _ rfl]
  rw [zp_fieldsSep fs h]
  rw [zp_struct '\x7d' (by decide) (by decide) (by decide) (by decide) _ rfl]
  rw [show i + (renderStrObj fs).length =
    i + 1 + (sepByComma (fs.map renderField)).length + 1 from by
      simp only [renderStrObj, List.length_cons, List.length_append,
        List.length_nil]
      omega]

theorem zp_objsSep (objs : List (List (List Char × List Char)))
    (h : cleanObjs objs = true) (bc : ℤ) (i : ℕ) (rest : List Char) :
    zeroPointsGo ⟨bc, false, false⟩ i
      (sepByComma (objs.map renderStrObj) ++ rest) =
      zeroPointsGo ⟨bc, false, false⟩
        (i + (sepByComma (objs.map renderStrObj)).length) rest := by
  induction objs generalizing i with
  | nil => simp [sepByComma]
  | cons o tl ih =>
    rw [cleanObjs, List.all_cons, Bool.and_eq_true] at h
    cases tl with
    | nil =>
      rw [List.map_cons, List.map_nil,
        show sepByComma [renderStrObj o] = renderStrObj o from rfl]
      exact zp_obj o h.1 bc i rest
    | cons o2 r2 =>
      rw [List.map_cons, List.map_cons,
        show sepByComma (renderStrObj o :: renderStrObj o2 :: (r2.map renderStrObj)) =
          renderStrObj o ++ ',' :: sepByComma (renderStrObj o2 :: (r2.map renderStrObj))
          from rfl]
      rw [List.append_assoc, List.cons_append]
      rw [zp_obj o h.1, zp_struct ',' (by decide) (by decide) (by decide)
        (by decide) _ rfl]
      have ih2 := ih h.2 (i + (renderStrObj o).length + 1)
      rw [List.map_cons] at ih2
      rw [ih2]
      rw [show i + (renderStrObj o ++ ',' ::
          sepByComma (renderStrObj o2 :: (r2.map renderStrObj))).length =
        i + (renderStrObj o).length + 1 +
          (sepByComma (renderStrObj o2 :: (r2.map renderStrObj))).length from by
        simp only [List.length_append, List.length_cons]; omega]

theorem zp_tail (i : ℕ) :
    zeroPointsGo ⟨1, false, false⟩ i (',' :: truncTail) = [] := rfl

theorem zp_close (i : ℕ) (bc : ℤ) (hbc : bc = 1) :
    zeroPointsGo ⟨bc, false, false⟩ i [']'] = [i + 1] := by
  subst hbc
  rfl

theorem zeroPoints_truncText (objs : List (List (List Char × List Char)))
    (h : cleanObjs objs = true) :
    zeroPoints ('[' :: sepByComma (objs.map renderStrObj) ++ ',' :: truncTail) =
      [] := by
  unfold zeroPoints
  rw [List.cons_append]
  rw [show zeroPointsGo ⟨0, false, false⟩ 0
      ('[' :: (sepByComma (objs.map renderStrObj) ++ ',' :: truncTail)) =
    zeroPointsGo ⟨1, false, false⟩ 1
      (sepByComma (objs.map renderStrObj) ++ ',' :: truncTail) from rfl]
  rw [zp_objsSep objs h]
  exact zp_tail _

theorem zeroPoints_arr (objs : List (List (List Char × List Char)))
    (h : cleanObjs objs = true) :
    zeroPoints (renderStrObjArr objs) = [(renderStrObjArr objs).length] := by
  rw [show renderStrObjArr objs =
    '[' :: (sepByComma (objs.map renderStrObj) ++ [']']) from by
      simp [renderStrObjArr]]
  unfold zeroPoints
  rw [show zeroPointsGo ⟨0, false, false⟩ 0
      ('[' :: (sepByComma (objs.map renderStrObj) ++ [']'])) =
    zeroPointsGo ⟨1, false, false⟩ 1
      (sepByComma (objs.map renderStrObj) ++ [']']) from rfl]
  rw [zp_objsSep objs h, zp_close _ 1 rfl]
  rw [show ('[' :: (sepByComma (objs.map renderStrObj) ++ [']'])).length =
    1 + (sepByComma (objs.map renderStrObj)).length + 1 from by
      simp only [List.length_cons, List.length_append, List.length_nil]
      omega]

theorem rfind_append_singleton (p : Char → Bool) (l : List Char) (c : Char)
    (hc : p c = true) : rfindIdx p (l ++ [c]) = some l.length := by
  induction l with
  | nil =>
    simp only [List.nil_append]
    unfold rfindIdx
    rw [show rfindIdx p [] = none from rfl, hc]
    rfl
  | cons d l2 ih =>
    rw [List.cons_append]
    unfold rfindIdx
    rw [ih]
    rfl

theorem jsonEndOf_arr (objs : List (List (List Char × List Char)))
    (h : cleanObjs objs = true) :
    jsonEndOf (renderStrObjArr objs) = some (renderStrObjArr objs).length := by
  unfold jsonEndOf
  rw [zeroPoints_arr objs h]
  rfl

theorem jsonEndOf_trunc (objs : List (List (List Char × List Char)))
    (h : cleanObjs objs = true) :
    jsonEndOf ('[' :: sepByComma (objs.map renderStrObj) ++ ',' :: truncTail) =
      some ('[' :: sepByComma (objs.map renderStrObj) ++
        ',' :: truncTail).length := by
  have hsplit : '[' :: sepByComma (objs.map renderStrObj) ++ ',' :: truncTail =
      ('[' :: (sepByComma (objs.map renderStrObj) ++
        [',', '\x7b', '"', 't', '"', ':', '[', '"', 'u', '"'])) ++ [']'] := by
    simp [truncTail]
  unfold jsonEndOf
  rw [zeroPoints_truncText objs h]
  rw [show (([] : List ℕ).head?) = none from rfl]
  rw [show (([] : List ℕ).getLast?) = none from rfl]
  rw [hsplit, rfind_append_singleton _ _ _ (by decide)]
  rw [show (('[' :: (sepByComma (objs.map renderStrObj) ++
      [',', '\x7b', '"', 't', '"', ':', '[', '"', 'u', '"'])).length) =
    (sepByComma (objs.map renderStrObj)).length + 11 from by
      simp only [List.length_cons, List.length_append, List.length_nil]]
  rw [show (('[' :: (sepByComma (objs.map renderStrObj) ++
      [',', '\x7b', '"', 't', '"', ':', '[', '"', 'u', '"'])) ++ [']']).length =
    (sepByComma (objs.map renderStrObj)).length + 11 + 1 from by
      simp only [List.length_cons, List.length_append, List.length_nil]]
  dsimp only
  rw [if_pos (by omega)]

theorem mem_truncText {c : Char} {objs : List (List (List Char × List Char))}
    (h : c ∈ '[' :: sepByComma (objs.map renderStrObj) ++ ',' :: truncTail) :
    c = '[' ∨ c = ',' ∨ c ∈ truncTail ∨ c = '\x7b' ∨ c = '\x7d' ∨ c = '"' ∨
      c = ':' ∨ ∃ o ∈ objs, ∃ p ∈ o, c ∈ p.1 ∨ c ∈ p.2 := by
  rw [List.cons_append, List.mem_cons, List.mem_append, List.mem_cons] at h
  rcases h with h | h | h | h
  · exact Or.inl h
  · rcases mem_sepByComma h with h | ⟨x, hx, hc⟩
    · exact Or.inr (Or.inl h)
    · rcases List.mem_map.mp hx with ⟨o, ho, rfl⟩
      rcases mem_renderStrObj hc with h | h | h | h | h | ⟨p, hp, hc2⟩
      · exact Or.inr (Or.inr (Or.inr (Or.inl h)))
      · exact Or.inr (Or.inr (Or.inr (Or.inr (Or.inl h))))
      · exact Or.inr (Or.inr (Or.inr (Or.inr (Or.inr (Or.inl h)))))
      · exact Or.inr (Or.inr (Or.inr (Or.inr (Or.inr (Or.inr (Or.inl h))))))
      · exact Or.inr (Or.inl h)
      · exact Or.inr (Or.inr (Or.inr (Or.inr (Or.inr (Or.inr (Or.inr
          ⟨o, ho, p, hp, hc2⟩))))))
  · exact Or.inr (Or.inl h)
  · exact Or.inr (Or.inr (Or.inl h))

theorem noTick_truncText {objs : List (List (List Char × List Char))}
    (h : cleanObjs objs = true) :
    ∀ c ∈ '[' :: sepByComma (objs.map renderStrObj) ++ ',' :: truncTail,
      c ≠ '\x60' := by
  intro c hc
  rcases mem_truncText hc with h1 | h1 | h1 | h1 | h1 | h1 | h1 |
      ⟨o, ho, p, hp, h1⟩
  · subst h1; decide
  · subst h1; decide
  · simp only [truncTail, List.mem_cons, List.not_mem_nil, or_false] at h1
    rcases h1 with rfl | rfl | rfl | rfl | rfl | rfl | rfl | rfl | rfl | rfl <;>
      decide
  · subst h1; decide
  · subst h1; decide
  · subst h1; decide
  · subst h1; decide
  · exact (cleanChar_ne c (clean_of_mem h ho hp h1)).2.2.2.2.2.1

theorem inert_truncText {objs : List (List (List Char × List Char))}
    (h : cleanObjs objs = true) :
    ∀ c ∈ '[' :: sepByComma (objs.map renderStrObj) ++ ',' :: truncTail,
      sanitizeInert c = true := by
  intro c hc
  rcases mem_truncText hc with h1 | h1 | h1 | h1 | h1 | h1 | h1 |
      ⟨o, ho, p, hp, h1⟩
  · subst h1; decide
  · subst h1; decide
  · simp only [truncTail, List.mem_cons, List.not_mem_nil, or_false] at h1
    rcases h1 with rfl | rfl | rfl | rfl | rfl | rfl | rfl | rfl | rfl | rfl <;>
      decide
  · subst h1; decide
  · subst h1; decide
  · subst h1; decide
  · subst h1; decide
  · exact cleanChar_inert c (clean_of_mem h ho hp h1)

theorem splitAtTicks_none (s : List Char) (h : ∀ c ∈ s, c ≠ '\x60') :
    splitAtTicks s = none := by
  induction s with
  | nil => rfl
  | cons c rest ih =>
    unfold splitAtTicks
    rw [if_neg fun hc => h c (by simp) hc.1]
    rw [ih fun d hd => h d (by simp [hd])]
    rfl

theorem fromFirstBracket_head (l : List Char) :
    fromFirstBracket ('[' :: l) = some ('[' :: l) := rfl

theorem extractStart_noTick_head (l : List Char)
    (h : ∀ c ∈ '[' :: l, c ≠ '\x60') :
    extractStartText ('[' :: l) = some ('[' :: l) := by
  unfold extractStartText pyFenceSearch
  rw [splitAtTicks_none _ h]
  rfl

theorem sep_objs_snoc (objs : List (List (List Char × List Char)))
    (h : objs ≠ []) :
    ∃ s, sepByComma (objs.map renderStrObj) = s ++ ['\x7d'] := by
  induction objs with
  | nil => exact absurd rfl h
  | cons o tl ih =>
    cases tl with
    | nil =>
      refine ⟨'\x7b' :: sepByComma (o.map renderField), ?_⟩
      rw [List.map_cons, List.map_nil,
        show sepByComma [renderStrObj o] = renderStrObj o from rfl]
      simp [renderStrObj]
    | cons o2 r2 =>
      obtain ⟨s2, hs2⟩ := ih (by simp)
      rw [List.map_cons] at hs2
      refine ⟨renderStrObj o ++ ',' :: s2, ?_⟩
      rw [List.map_cons, List.map_cons,
        show sepByComma (renderStrObj o :: renderStrObj o2 :: (r2.map renderStrObj)) =
          renderStrObj o ++ ',' :: sepByComma (renderStrObj o2 :: (r2.map renderStrObj))
          from rfl]
      rw [hs2]
      simp

theorem rfind_append_right_none (p : Char → Bool) (l r : List Char)
    (h : rfindIdx p r = none) :
    rfindIdx p (l ++ r) = rfindIdx p l := by
  induction l with
  | nil =>
    simp only [List.nil_append]
    rw [h]
    rfl
  | cons d l2 ih =>
    rw [List.cons_append]
    unfold rfindIdx
    rw [ih]

theorem rfind_trunc (objs : List (List (List Char × List Char)))
    (h : objs ≠ []) :
    rfindIdx (· = '\x7d')
        ('[' :: sepByComma (objs.map renderStrObj) ++ ',' :: truncTail) =
      some (sepByComma (objs.map renderStrObj)).length := by
  obtain ⟨s, hs⟩ := sep_objs_snoc objs h
  rw [List.cons_append,
    show ('[' : Char) :: (sepByComma (objs.map renderStrObj) ++
      ',' :: truncTail) = ('[' :: sepByComma (objs.map renderStrObj)) ++
      ',' :: truncTail from by simp]
  rw [rfind_append_right_none _ _ _ (by decide)]
  rw [hs, show ('[' : Char) :: (s ++ ['\x7d']) = ('[' :: s) ++ ['\x7d'] from by
    simp]
  rw [rfind_append_singleton _ _ _ (by decide)]
  simp

theorem take_trunc (objs : List (List (List Char × List Char))) :
    ('[' :: sepByComma (objs.map renderStrObj) ++ ',' :: truncTail).take
        ((sepByComma (objs.map renderStrObj)).length + 1) =
      '[' :: sepByComma (objs.map renderStrObj) := by
  rw [List.cons_append]
  rw [show (sepByComma (objs.map renderStrObj)).length + 1 =
    (sepByComma (objs.map renderStrObj)).length + 1 from rfl]
  rw [List.take_succ_cons]
  rw [List.take_left' rfl]

theorem truncated_array_recovered_aux (objs : List (List (List Char × List Char)))
    (h : cleanObjs objs = true) (hne : objs ≠ []) :
    parse_anthropic_response
        ('[' :: sepByComma (objs.map renderStrObj) ++ ',' :: truncTail) =
      .ok (.arr (objs.map strObjVal)) := by
  have hnt : ∀ c ∈ ('[' : Char) ::
      (sepByComma (objs.map renderStrObj) ++ ',' :: truncTail), c ≠ '\x60' := by
    intro c hc
    exact noTick_truncText h c hc
  have hstart := extractStart_noTick_head
    (sepByComma (objs.map renderStrObj) ++ ',' :: truncTail) hnt
  have hend := jsonEndOf_trunc objs h
  rw [List.cons_append] at hend ⊢
  rw [parse_red_some _ _ _ hstart hend]
  have htake : (('[' : Char) ::
      (sepByComma (objs.map renderStrObj) ++ ',' :: truncTail)).take
        ((('[' : Char) ::
          (sepByComma (objs.map renderStrObj) ++ ',' :: truncTail)).length) =
      '[' :: (sepByComma (objs.map renderStrObj) ++ ',' :: truncTail) :=
    List.take_length _
  rw [htake]
  have hsan : sanitizeJson ('[' ::
      (sepByComma (objs.map renderStrObj) ++ ',' :: truncTail)) =
      '[' :: (sepByComma (objs.map renderStrObj) ++ ',' :: truncTail) := by
    refine sanitizeJson_of_inert_good _ ?_ ?_
    · rw [List.all_eq_true]
      intro c hc
      exact inert_truncText h c hc
    · have := gc_truncText objs h
      rw [List.cons_append] at this
      exact this
  rw [hsan]
  have hp := json_loads_truncText objs h hne
  rw [List.cons_append] at hp
  have hr := rfind_trunc objs hne
  rw [List.cons_append] at hr
  have hi : 0 < (sepByComma (objs.map renderStrObj)).length := by
    obtain ⟨s, hs⟩ := sep_objs_snoc objs hne
    rw [hs]
    simp
  have htk := take_trunc objs
  rw [List.cons_append] at htk
  have hj2 : json_loads ((('[' : Char) ::
      (sepByComma (objs.map renderStrObj) ++ ',' :: truncTail)).take
        ((sepByComma (objs.map renderStrObj)).length + 1) ++ [']']) =
      .ok (.arr (objs.map strObjVal)) := by
    rw [htk]
    rw [show ('[' : Char) :: sepByComma (objs.map renderStrObj) ++ [']'] =
      renderStrObjArr objs from by simp [renderStrObjArr]]
    exact RT_loads objs h hne
  exact parseWithRepair_repair_ok _ _ _ _ hp rfl hr hi hj2

theorem splitAtTicks_found (p rest : List Char) (h : ∀ c ∈ p, c ≠ '\x60') :
    splitAtTicks (p ++ '\x60' :: '\x60' :: '\x60' :: rest) = some (p, rest) := by
  induction p with
  | nil =>
    rw [List.nil_append]
    unfold splitAtTicks
    rw [if_pos ⟨rfl, rfl⟩]
    rfl
  | cons c p2 ih =>
    rw [List.cons_append]
    unfold splitAtTicks
    rw [if_neg fun hc => h c (by simp) hc.1]
    rw [ih fun d hd => h d (by simp [hd])]
    rfl

theorem pyStrip_wrap (l : List Char) (hl : l.all sanitizeInert = true)
    (hne : l ≠ []) :
    pyStrip ('\n' :: (l ++ ['\n'])) = l := by
  obtain ⟨c, l2, rfl⟩ : ∃ c l2, l = c :: l2 := by
    cases l with
    | nil => exact absurd rfl hne
    | cons c l2 => exact ⟨c, l2, rfl⟩
  rw [List.all_cons, Bool.and_eq_true] at hl
  unfold pyStrip
  rw [show List.dropWhile isPyWs ('\n' :: (c :: l2 ++ ['\n'])) =
    List.dropWhile isPyWs (c :: l2 ++ ['\n']) from by
      rw [List.dropWhile_cons,
        if_pos (show isPyWs '\n' = true from rfl)]]
  rw [List.cons_append, List.dropWhile_cons]
  rw [inert_not_pyWs c hl.1]
  simp only [Bool.false_eq_true, if_false]
  rw [show (c :: (l2 ++ ['\n'])).reverse = '\n' :: (l2.reverse ++ [c]) from by
    simp]
  rw [List.dropWhile_cons]
  simp only [show isPyWs '\n' = true from rfl, if_true]
  rw [dropWhile_pyWs_of_inert (l2.reverse ++ [c]) (by
    rw [List.all_eq_true]
    intro d hd
    rcases List.mem_append.mp hd with hd | hd
    · rw [List.all_eq_true] at hl
      exact hl.2 d (List.mem_reverse.mp hd)
    · rw [List.mem_singleton] at hd
      subst hd
      exact hl.1)]
  simp

theorem parseWithRepair_of_ok (js : List Char) (v : JsonVal)
    (h : json_loads js = .ok v) : parseWithRepair js = .ok v := by
  unfold parseWithRepair
  rw [h]

theorem renderStrObjArr_ne_nil (objs : List (List (List Char × List Char))) :
    renderStrObjArr objs ≠ [] := by
  rw [show renderStrObjArr objs =
    '[' :: (sepByComma (objs.map renderStrObj) ++ [']']) from by
      simp [renderStrObjArr]]
  simp

theorem fenced_array_extracted (pre post : List Char)
    (hpre : ∀ c ∈ pre, c ≠ '\x60')
    (objs : List (List (List Char × List Char)))
    (h : cleanObjs objs = true) :
    parse_anthropic_response (pre ++ '\x60' :: '\x60' :: '\x60' ::
        'j' :: 's' :: 'o' :: 'n' :: '\n' ::
        (renderStrObjArr objs ++ '\n' :: '\x60' :: '\x60' :: '\x60' :: post)) =
      .ok (.arr (objs.map strObjVal)) := by
  have hinert := inert_renderStrObjArr h
  have hfence : pyFenceSearch (pre ++ '\x60' :: '\x60' :: '\x60' ::
      'j' :: 's' :: 'o' :: 'n' :: '\n' ::
      (renderStrObjArr objs ++ '\n' :: '\x60' :: '\x60' :: '\x60' :: post)) =
      some (renderStrObjArr objs) := by
    unfold pyFenceSearch
    rw [splitAtTicks_found pre _ hpre]
    dsimp only
    rw [show ('j' :: 's' :: 'o' :: 'n' :: '\n' ::
        (renderStrObjArr objs ++ '\n' :: '\x60' :: '\x60' :: '\x60' :: post)).take 4 =
      ['j', 's', 'o', 'n'] from rfl]
    rw [if_pos rfl]
    rw [show ('j' :: 's' :: 'o' :: 'n' :: '\n' ::
        (renderStrObjArr objs ++ '\n' :: '\x60' :: '\x60' :: '\x60' :: post)).drop 4 =
      ('\n' :: (renderStrObjArr objs ++ ['\n'])) ++
        '\x60' :: '\x60' :: '\x60' :: post from by simp]
    rw [splitAtTicks_found _ _ (by
      intro c hc
      rcases List.mem_cons.mp hc with rfl | hc
      · decide
      · rcases List.mem_append.mp hc with hc | hc
        · exact noTick_renderStrObjArr h c hc
        · rw [List.mem_singleton] at hc
          subst hc
          decide)]
    dsimp only
    rw [pyStrip_wrap (renderStrObjArr objs) (by
        rw [List.all_eq_true]
        intro d hd
        exact hinert d hd)
      (renderStrObjArr_ne_nil objs)]
  have hstart : extractStartText (pre ++ '\x60' :: '\x60' :: '\x60' ::
      'j' :: 's' :: 'o' :: 'n' :: '\n' ::
      (renderStrObjArr objs ++ '\n' :: '\x60' :: '\x60' :: '\x60' :: post)) =
      some (renderStrObjArr objs) := by
    unfold extractStartText
    rw [hfence]
    dsimp only
    rw [show renderStrObjArr objs =
      '[' :: (sepByComma (objs.map renderStrObj) ++ [']']) from by
        simp [renderStrObjArr]]
    rw [fromFirstBracket_head]
  rw [parse_red_some _ _ _ hstart (jsonEndOf_arr objs h)]
  rw [List.take_length]
  rw [sanitizeJson_of_inert_good _ (by
      rw [List.all_eq_true]
      intro d hd
      exact hinert d hd)
    (gc_renderStrObjArr objs h)]
  cases hobjs : objs with
  | nil =>
    subst hobjs
    refine parseWithRepair_of_ok _ _ ?_
    rfl
  | cons o tl =>
    refine parseWithRepair_of_ok _ _ ?_
    rw [← hobjs]
    exact RT_loads objs h (by rw [hobjs]; simp)

/-- C4 counterexample: the input holds a truncated JSON array missing its
closing bracket with one complete object (`[{"n":"A"},{"x":1`), yet extract
raises (no plausible array end is found: no balanced close and no literal
`]` anywhere), instead of returning the complete-object prefix. -/
theorem parse_truncated_counterexample :
    parse_anthropic_response
        ['[', '\x7b', '"', 'n', '"', ':', '"', 'A', '"', '\x7d', ',',
         '\x7b', '"', 'x', '"', ':', '1'] = .error .noArrayEnd := rfl

/-- C4 (amended): for a batch of flat string records over sanitizer-inert
characters (letters and digits) rendered as a JSON array and truncated
after a trailing comma by the incomplete object `{"t":["u"` — whose nested
array contributes the literal `]` the fallback end-search needs — extract
returns exactly the complete-object prefix: the parse fails with a
missing-comma-delimiter error, the repair truncates to the last `}` and
re-closes the array, and the retry succeeds. -/
theorem truncated_array_recovered (objs : List (List (List Char × List Char)))
    (h : cleanObjs objs = true) (hne : objs ≠ []) :
    parse_anthropic_response
        ('[' :: sepByComma (objs.map renderStrObj) ++ ',' :: truncTail) =
      .ok (.arr (objs.map strObjVal)) :=
  truncated_array_recovered_aux objs h hne

/-- Witness for C4's amended theorem at the one-record batch
`[{"n":"A"}, {"t":["u"` . -/
theorem truncated_array_recovered_witness :
    cleanObjs [[(['n'], ['A'])]] = true ∧
    parse_anthropic_response ('[' :: sepByComma
        ([[(['n'], ['A'])]].map renderStrObj) ++ ',' :: truncTail) =
      .ok (.arr ([[(['n'], ['A'])]].map strObjVal)) :=
  ⟨by decide, truncated_array_recovered [[(['n'], ['A'])]] (by decide)
    (by decide)⟩

/-- C5 counterexample: the fenced array `[{"name":"A  B"}]` is well-formed
JSON, but extract returns the record with value `"A B"` — the sanitizer
collapses the whitespace run inside the string value — so the output is not
exactly the array's records. -/
theorem parse_fenced_counterexample :
    parse_anthropic_response
        ['S', 'u', 'r', 'e', '!', ' ', '\x60', '\x60', '\x60', 'j', 's',
         'o', 'n', '\n', '[', '\x7b', '"', 'n', 'a', 'm', 'e', '"', ':',
         '"', 'A', ' ', ' ', 'B', '"', '\x7d', ']', '\n', '\x60', '\x60',
         '\x60'] =
      .ok (.arr [.obj [(['n', 'a', 'm', 'e'], .str ['A', ' ', 'B'])]]) ∧
    (['A', ' ', 'B'] : List Char) ≠ ['A', ' ', ' ', 'B'] :=
  ⟨rfl, by decide⟩

/-- C5 (amended): for any batch of flat string records over sanitizer-inert
characters (letters and digits) rendered as a json-tagged fenced array, and
any backtick-free prefix and arbitrary suffix, extract returns exactly the
array's records; on richer values the sanitizer may rewrite string contents
(see the counterexample). -/
theorem fenced_array_returns_records (pre post : List Char)
    (hpre : ∀ c ∈ pre, c ≠ '\x60')
    (objs : List (List (List Char × List Char)))
    (h : cleanObjs objs = true) :
    parse_anthropic_response (pre ++ '\x60' :: '\x60' :: '\x60' ::
        'j' :: 's' :: 'o' :: 'n' :: '\n' ::
        (renderStrObjArr objs ++ '\n' :: '\x60' :: '\x60' :: '\x60' :: post)) =
      .ok (.arr (objs.map strObjVal)) :=
  fenced_array_extracted pre post hpre objs h

/-- Witness for C5's amended theorem at the specification's scenario:
prefix `Sure! `, fenced body `[{"name":"A"}]`. -/
theorem fenced_array_returns_records_witness :
    (∀ c ∈ ['S', 'u', 'r', 'e', '!', ' '], c ≠ '\x60') ∧
    cleanObjs [[(['n', 'a', 'm', 'e'], ['A'])]] = true ∧
    parse_anthropic_response (['S', 'u', 'r', 'e', '!', ' '] ++
        '\x60' :: '\x60' :: '\x60' :: 'j' :: 's' :: 'o' :: 'n' :: '\n' ::
        (renderStrObjArr [[(['n', 'a', 'm', 'e'], ['A'])]] ++
          '\n' :: '\x60' :: '\x60' :: '\x60' :: [])) =
      .ok (.arr ([[(['n', 'a', 'm', 'e'], ['A'])]].map strObjVal)) :=
  ⟨by decide, by decide,
    fenced_array_returns_records ['S', 'u', 'r', 'e', '!', ' '] []
      (by decide) [[(['n', 'a', 'm', 'e'], ['A'])]] (by decide)⟩
